import Mathlib

/-!
Verification of the `alchemist` repository's format-string fixer scripts
(`scripts/fix_format_strings_advanced.py`, `scripts/fix_format_strings_phase2.py`,
`scripts/fix_final_format_strings.py`, `scripts/fix_remaining_format_strings.py`)
and of the vocabulary projector (`scripts/generate-vocabulary-md.py`).

Strings are embedded as `List Char`.  The Python `re` module is embedded as a
small backtracking regular-expression engine (`RE`, `mAll`, `reSub`) whose
alternative ordering mirrors Python's backtracking priority (greedy tries the
longest repetition first, lazy the shortest, leftmost match wins), which is
what the scripts' behaviour depends on.  Python string operations used by the
scripts (`strip`, `count`, `replace`, `str.title`, slicing) are embedded as
functions over `List Char` restricted to their ASCII behaviour, which is the
form all inputs in this repository take.
-/

namespace Alchemist

/-- Whitespace characters matched by Python's `\s` and stripped by `str.strip()`
(ASCII subset). -/
def pyWs (c : Char) : Bool :=
  c = ' ' ∨ c = '\t' ∨ c = '\n' ∨ c = '\r' ∨ c = '\x0b' ∨ c = '\x0c'

/-- Word characters matched by Python's `\w` (ASCII subset). -/
def pyWord (c : Char) : Bool :=
  c.isAlpha ∨ c.isDigit ∨ c = '_'

/-- Python `str.strip()`: drop leading and trailing whitespace. -/
def pyStrip (s : List Char) : List Char :=
  ((s.dropWhile pyWs).reverse.dropWhile pyWs).reverse

/-- Fuel-bounded worker for `countSub`; the fuel dominates the remaining
length, so it never runs out. -/
def countSubGo (pat : List Char) : Nat → List Char → Nat
  | 0, _ => 0
  | _, [] => 0
  | f + 1, c :: cs =>
    if pat.isPrefixOf (c :: cs) then
      1 + countSubGo pat f (List.drop (pat.length - 1) cs)
    else
      countSubGo pat f cs

/-- Python `str.count(pat)`: non-overlapping occurrences, scanning left to right. -/
def countSub (pat s : List Char) : Nat :=
  countSubGo pat s.length s

/-- Python `str.replace(pat, rep, 1)`: replace the leftmost occurrence only. -/
def replaceFirst (s pat rep : List Char) : List Char :=
  match s with
  | [] => []
  | c :: cs =>
    if pat.isPrefixOf (c :: cs) then
      rep ++ List.drop (pat.length - 1) cs
    else
      c :: replaceFirst cs pat rep

/-- Fuel-bounded worker for `replaceAll`; the fuel dominates the remaining
length, so it never runs out. -/
def replaceAllGo (pat rep : List Char) : Nat → List Char → List Char
  | 0, s => s
  | _, [] => []
  | f + 1, c :: cs =>
    if pat.isPrefixOf (c :: cs) then
      rep ++ replaceAllGo pat rep f (List.drop (pat.length - 1) cs)
    else
      c :: replaceAllGo pat rep f cs

/-- Python `str.replace(pat, rep)`: replace all non-overlapping occurrences,
left to right. -/
def replaceAll (pat rep s : List Char) : List Char :=
  replaceAllGo pat rep s.length s

/-- Python `pat in s` (substring test). -/
def containsSub (pat : List Char) : List Char → Bool
  | [] => pat.isPrefixOf ([] : List Char)
  | c :: cs => pat.isPrefixOf (c :: cs) || containsSub pat cs

/-- Python `', '.join(xs)` and friends. -/
def joinSep (sep : List Char) : List (List Char) → List Char
  | [] => []
  | [x] => x
  | x :: y :: rest => x ++ sep ++ joinSep sep (y :: rest)

/-! ## The regular-expression engine

Only the constructs used by the scripts' patterns are embedded: literal
characters, (negated) character classes, `\s`, `\w`, sequencing, capture
groups, greedy and lazy star, and greedy plus (as `r(r)*`).  The engine
returns every way a pattern can match a prefix of the input, ordered by
Python's backtracking priority; the head of the list is Python's match. -/

inductive RE where
  | eps : RE
  | ch : Char → RE
  | cls : Bool → List Char → RE
  | wsp : RE
  | wrd : RE
  | seq : RE → RE → RE
  | grp : Nat → RE → RE
  | starG : RE → RE
  | starL : RE → RE
deriving Repr

/-- Captured groups: association list from group index to captured text;
the most recent write is at the head. -/
abbrev Caps := List (Nat × List Char)

/-- A backtracking continuation: receives the remaining input and the
captures, and succeeds or fails. -/
abbrev MCont := List Char → Caps → Option (List Char × Caps)

/-- Structural worker for `mFirst`: match one regex in
continuation-passing style, exploring alternatives in Python's backtracking
priority (greedy stars try another iteration before stopping, lazy stars
stop first) and returning the first overall success.  `next` handles the
continuation of a star after one consuming iteration (one fuel level
down). -/
def mFirstGo (next : RE → List Char → Caps → MCont → Option (List Char × Caps)) :
    RE → List Char → Caps → MCont → Option (List Char × Caps)
  | .eps, s, k, cont => cont s k
  | .ch c, s, k, cont =>
    match s with
    | [] => none
    | x :: xs => if x = c then cont xs k else none
  | .cls neg cs, s, k, cont =>
    match s with
    | [] => none
    | x :: xs => if (cs.contains x) ≠ neg then cont xs k else none
  | .wsp, s, k, cont =>
    match s with
    | [] => none
    | x :: xs => if pyWs x then cont xs k else none
  | .wrd, s, k, cont =>
    match s with
    | [] => none
    | x :: xs => if pyWord x then cont xs k else none
  | .seq a b, s, k, cont =>
    mFirstGo next a s k fun s1 k1 => mFirstGo next b s1 k1 cont
  | .grp i r, s, k, cont =>
    mFirstGo next r s k fun s1 k1 =>
      cont s1 ((i, s.take (s.length - s1.length)) :: k1)
  | .starG r, s, k, cont =>
    (mFirstGo next r s k fun s1 k1 =>
      if s1.length < s.length then next (.starG r) s1 k1 cont else none) <|>
    cont s k
  | .starL r, s, k, cont =>
    cont s k <|>
    (mFirstGo next r s k fun s1 k1 =>
      if s1.length < s.length then next (.starL r) s1 k1 cont else none)

/-- The highest-priority match of `re` against a prefix of `s`, in
continuation-passing style.  `fuel` bounds star unfolding; iterations that
consume nothing are cut off, so `fuel = s.length + 1` is always enough. -/
def mFirst : Nat → RE → List Char → Caps → MCont → Option (List Char × Caps)
  | 0 => mFirstGo fun _ _ _ _ => none
  | f + 1 => mFirstGo (mFirst f)

/-- Greedy plus `r+` as `r · r*`. -/
def plusG (r : RE) : RE := .seq r (.starG r)

/-- Sequence a list of regexes. -/
def seqList : List RE → RE
  | [] => .eps
  | [r] => r
  | r :: rest => .seq r (seqList rest)

/-- A sequence of literal characters. -/
def lits (s : List Char) : RE := seqList (s.map RE.ch)

/-- Python's `re` match of `re` anchored at the start of `s`: the
highest-priority way to match a prefix, if any. -/
def tryMatch (re : RE) (s : List Char) : Option (List Char × Caps) :=
  mFirst (s.length + 1) re s [] fun s1 k1 => some (s1, k1)

/-- Does the pattern match anywhere in `s` (Python `re.search`)? -/
def hasMatchB (re : RE) : List Char → Bool
  | [] => (tryMatch re []).isSome
  | c :: cs => (tryMatch re (c :: cs)).isSome || hasMatchB re (c :: cs).tail

/-- One pass of Python `re.sub`: scan left to right, replace each leftmost
non-overlapping match using `rep` (which receives the matched text and the
captures), copy unmatched characters verbatim. -/
def reSubGo (re : RE) (rep : List Char → Caps → List Char) :
    Nat → List Char → List Char
  | 0, s => s
  | fuel + 1, s =>
    match tryMatch re s with
    | none =>
      match s with
      | [] => []
      | c :: cs => c :: reSubGo re rep fuel cs
    | some (rest, caps) =>
      let m := s.take (s.length - rest.length)
      if rest.length < s.length then
        rep m caps ++ reSubGo re rep fuel rest
      else
        rep m caps ++
          (match s with
           | [] => []
           | c :: cs => c :: reSubGo re rep fuel cs)

/-- Python `re.sub(re, rep, s)`. -/
def reSub (re : RE) (rep : List Char → Caps → List Char) (s : List Char) :
    List Char :=
  reSubGo re rep (s.length + 1) s

/-- Captured group `i` (Python `m.group(i)`); all groups in the embedded
patterns participate in every successful match. -/
def gp (caps : Caps) (i : Nat) : List Char :=
  ((caps.find? fun e => e.1 = i).map (·.2)).getD []

/-! ## The patterns of the fixer scripts -/

/-- `\s*` -/
def wsStar : RE := .starG .wsp

/-- `([^"]*?)` wrapped as group `i`. -/
def lazyNoQuote (i : Nat) : RE := .grp i (.starL (.cls true ['"']))

/-- `([^}]+\.[^}]+)` wrapped as group `i` — the "field access" group of the
phase2 script. -/
def dottedGrp (i : Nat) : RE :=
  .grp i (seqList [plusG (.cls true ['\x7d']), .ch '.', plusG (.cls true ['\x7d'])])

/-- `scripts/fix_format_strings_phase2.py` pattern
`format!\s*\(\s*"([^"]*?)\{([^}]+\.[^}]+)\}([^"]*?)"\s*\)`. -/
def p2pat1 : RE :=
  seqList [lits "format!".data, wsStar, .ch '(', wsStar, .ch '"',
    lazyNoQuote 1, .ch '\x7b', dottedGrp 2, .ch '\x7d',
    lazyNoQuote 3, .ch '"', wsStar, .ch ')']

/-- `scripts/fix_format_strings_phase2.py` pattern
`format!\s*\(\s*"([^"]*?)\{([^}]+\.[^}]+)\}([^"]*?)"\s*,\s*([^)]+)\)`. -/
def p2pat2 : RE :=
  seqList [lits "format!".data, wsStar, .ch '(', wsStar, .ch '"',
    lazyNoQuote 1, .ch '\x7b', dottedGrp 2, .ch '\x7d',
    lazyNoQuote 3, .ch '"', wsStar, .ch ',', wsStar,
    .grp 4 (plusG (.cls true [')'])), .ch ')']

/-- `scripts/fix_format_strings_phase2.py` pattern
`write!\s*\(\s*([^,]+),\s*"([^"]*?)\{([^}]+\.[^}]+)\}([^"]*?)"\s*\)`. -/
def p2pat3 : RE :=
  seqList [lits "write!".data, wsStar, .ch '(', wsStar,
    .grp 1 (plusG (.cls true [','])), .ch ',', wsStar, .ch '"',
    lazyNoQuote 2, .ch '\x7b', dottedGrp 3, .ch '\x7d',
    lazyNoQuote 4, .ch '"', wsStar, .ch ')']

/-- `(?:,\s*[^,)]+)+` — the trailing-arguments group body of the advanced
script's patterns. -/
def argsBody : RE := plusG (seqList [.ch ',', wsStar, plusG (.cls true [',', ')'])])

/-- `scripts/fix_format_strings_advanced.py` pattern
`NAME!\s*\(\s*"([^"]*?)"\s*((?:,\s*[^,)]+)+)\s*\)` for a given macro name. -/
def advPat (name : List Char) : RE :=
  seqList [lits name, .ch '!', wsStar, .ch '(', wsStar, .ch '"',
    lazyNoQuote 1, .ch '"', wsStar, .grp 2 argsBody, wsStar, .ch ')']

/-- `scripts/fix_format_strings_advanced.py` pattern
`write!\s*\(\s*([^,]+)\s*,\s*"([^"]*?)"\s*((?:,\s*[^,)]+)+)\s*\)`. -/
def advWritePat : RE :=
  seqList [lits "write!".data, wsStar, .ch '(', wsStar,
    .grp 1 (plusG (.cls true [','])), wsStar, .ch ',', wsStar, .ch '"',
    lazyNoQuote 2, .ch '"', wsStar, .grp 3 argsBody, wsStar, .ch ')']

/-! ## `scripts/fix_format_strings_phase2.py` -/

/-- `replacer` (phase2, lines 17–28): rebuild
`format!("{prefix}{}{suffix}", {field_expr})`.  (The `placeholder_count`
local computed by the source is never used.) -/
def replacer (g1 g2 g3 : List Char) : List Char :=
  "format!(\"".data ++ g1 ++ "\x7b\x7d".data ++ g3 ++ "\", ".data ++ g2 ++ ")".data

/-- `replacer2` (phase2, lines 37–46): rebuild
`format!("{prefix}{}{suffix}", {field_expr}, {other_args})`. -/
def replacer2 (g1 g2 g3 g4 : List Char) : List Char :=
  "format!(\"".data ++ g1 ++ "\x7b\x7d".data ++ g3 ++ "\", ".data ++ g2 ++
    ", ".data ++ g4 ++ ")".data

/-- `replacer3` (phase2, lines 53–61): rebuild
`write!({writer}, "{prefix}{}{suffix}", {field_expr})`. -/
def replacer3 (g1 g2 g3 g4 : List Char) : List Char :=
  "write!(".data ++ g1 ++ ", \"".data ++ g2 ++ "\x7b\x7d".data ++ g4 ++
    "\", ".data ++ g3 ++ ")".data

/-- `fix_format_string_field_access` from
`scripts/fix_format_strings_phase2.py` (lines 11–65): apply the three
substitutions in order. -/
def fix_format_string_field_access (content : List Char) : List Char :=
  let f1 := reSub p2pat1 (fun _ c => replacer (gp c 1) (gp c 2) (gp c 3)) content
  let f2 := reSub p2pat2 (fun _ c => replacer2 (gp c 1) (gp c 2) (gp c 3) (gp c 4)) f1
  reSub p2pat3 (fun _ c => replacer3 (gp c 1) (gp c 2) (gp c 3) (gp c 4)) f2

/-! ## `scripts/fix_format_strings_advanced.py` -/

/-- The comma-splitting loop shared (verbatim, as duplicated code) by
`replace_format` (lines 27–46) and `extract_vars` (lines 118–137): split on
commas at depth 0, where `(` and `<` increase and `)` and `>` decrease the
depth; a depth below zero breaks out of the loop, discarding the rest. -/
def splitLoop : List Char → List (List Char) → List Char → Int → List (List Char)
  | [], acc, cur, d =>
    acc ++ (if pyStrip cur ≠ [] ∧ d ≥ 0 then [pyStrip cur] else [])
  | c :: rest, acc, cur, d =>
    if c = '(' ∨ c = '<' then splitLoop rest acc (cur ++ [c]) (d + 1)
    else if c = ')' ∨ c = '>' then
      if d - 1 < 0 then acc
      else splitLoop rest acc (cur ++ [c]) (d - 1)
    else if c = ',' ∧ d = 0 then
      splitLoop rest (acc ++ (if pyStrip cur ≠ [] then [pyStrip cur] else [])) [] d
    else splitLoop rest acc (cur ++ [c]) d

/-- `extract_vars` (advanced, lines 112–139): strip, drop one leading comma,
then split. -/
def extract_vars (s : List Char) : List (List Char) :=
  let v := pyStrip s
  let v := if v.head? = some ',' then pyStrip (v.drop 1) else v
  splitLoop v [] [] 0

/-- `fix_placeholders` (advanced, lines 105–110): replace the first `{}` with
`{var}` once per variable; excess variables replace nothing. -/
def fix_placeholders (fstr : List Char) (vars : List (List Char)) : List Char :=
  vars.foldl (fun r v =>
    replaceFirst r "\x7b\x7d".data ("\x7b".data ++ v ++ "\x7d".data)) fstr

/-- `replace_format` (advanced, lines 17–70): split the argument text, inline
the first `placeholder_count` variables into the template, and re-emit any
remaining variables as arguments. -/
def replace_format (g0 g1 g2 : List Char) : List Char :=
  let varsList := extract_vars g2
  let pc := countSub "\x7b\x7d".data g1
  if pc = 0 ∨ varsList = [] then g0
  else
    let result := (varsList.take pc).foldl (fun r v0 =>
      let v1 := pyStrip v0
      let v2 := if v1.getLast? = some ')' ∧ ¬ containsSub "(".data v1
                then v1.dropLast else v1
      replaceFirst r "\x7b\x7d".data ("\x7b".data ++ v2 ++ "\x7d".data)) g1
    let remaining := varsList.drop pc
    if remaining ≠ [] then
      "format!(\"".data ++ result ++ "\", ".data ++
        joinSep ", ".data remaining ++ ")".data
    else
      "format!(\"".data ++ result ++ "\")".data

/-- `fix_format_strings` (advanced, lines 8–103): the four substitution
passes (`format!`, `println!`, `eprintln!`, `write!`), in source order. -/
def fix_format_strings (content : List Char) : List Char :=
  let c1 := reSub (advPat "format".data)
    (fun m c => replace_format m (gp c 1) (gp c 2)) content
  let c2 := reSub (advPat "println".data)
    (fun m c => replaceAll "format!".data "println!".data
      (replace_format m (gp c 1) (gp c 2))) c1
  let c3 := reSub (advPat "eprintln".data)
    (fun m c => replaceAll "format!".data "eprintln!".data
      (replace_format m (gp c 1) (gp c 2))) c2
  reSub advWritePat
    (fun _ c => "write!(".data ++ gp c 1 ++ ", \"".data ++
      fix_placeholders (gp c 2) (extract_vars (gp c 3)) ++ "\")".data) c3

/-! ## `scripts/fix_final_format_strings.py` write-macro replacements -/

/-- Replacement for `write!\s*\(\s*(\w+)\s*,\s*"([^"]*?)\{self\.(\w+)\}([^"]*?)"\s*\)`
in `scripts/fix_final_format_strings.py` (line 41). -/
def finalWriteReplSelf (g1 g2 g3 g4 : List Char) : List Char :=
  "write!(".data ++ g1 ++ ", \"".data ++ g2 ++ "\x7b\x7d".data ++ g4 ++
    "\", self.".data ++ g3 ++ ")".data

/-- Replacement for `write!\s*\(\s*(\w+)\s*,\s*"([^"]*?)\{(\w+)\.(\w+)\}([^"]*?)"\s*\)`
in `scripts/fix_final_format_strings.py` (line 45). -/
def finalWriteReplVar (g1 g2 g3 g4 g5 : List Char) : List Char :=
  "write!(".data ++ g1 ++ ", \"".data ++ g2 ++ "\x7b\x7d".data ++ g5 ++
    "\", ".data ++ g3 ++ ".".data ++ g4 ++ ")".data

/-! ## Analysis tools: rendering, call parsing, balance checking -/

/-- A rendered piece: a literal character or the value of one expression. -/
inductive Piece where
  | lit : Char → Piece
  | val : List Char → Piece
deriving DecidableEq, Repr

/-- Modelled from the spec: the "stub expression evaluator" used by §8's
semantic-preservation test.  Renders a Rust format template against a
positional argument list: `{}` consumes the next argument, `{expr}` renders
the inline expression, a doubled `{{`/`}}` renders the literal brace.  (An
unterminated `{` aborts rendering; a lone `}` is kept as a literal.) -/
def renderTplGo : Nat → List Char → List (List Char) → List Piece
  | 0, _, _ => []
  | _, [], _ => []
  | f + 1, '\x7b' :: rest, args =>
    match rest with
    | '\x7b' :: r2 => .lit '\x7b' :: renderTplGo f r2 args
    | _ =>
      let e := rest.takeWhile (· ≠ '\x7d')
      match rest.dropWhile (· ≠ '\x7d') with
      | '\x7d' :: r3 =>
        if e = [] then .val (args.headD []) :: renderTplGo f r3 args.tail
        else .val e :: renderTplGo f r3 args
      | _ => []
  | f + 1, c :: rest, args => .lit c :: renderTplGo f rest args

/-- Render a template against its argument list. -/
def renderTpl (tpl : List Char) (args : List (List Char)) : List Piece :=
  renderTplGo (tpl.length + 1) tpl args

/-- The scanning predicate "not this character", named so that proofs can
refer to it. -/
def neChar (stop : Char) : Char → Bool := fun c => c != stop

/-- Parse a rewritten `format!` call back into its template text and its raw
argument text (empty when the call has no arguments). -/
def parseFmtCall (s : List Char) : Option (List Char × List Char) :=
  if ("format!(\"".data).isPrefixOf s then
    let r := s.drop 9
    let tpl := r.takeWhile (neChar '"')
    let rest := r.dropWhile (neChar '"')
    if rest.take 1 = ['"'] then
      let r2 := rest.drop 1
      if r2 = [')'] then some (tpl, [])
      else if (", ".data).isPrefixOf r2 ∧ r2.getLast? = some ')' then
        some (tpl, (r2.drop 2).dropLast)
      else none
    else none
  else none

/-- Parse a rewritten `write!` call back into its writer text, template text
and raw argument text. -/
def parseWriteCall (s : List Char) :
    Option (List Char × List Char × List Char) :=
  if ("write!(".data).isPrefixOf s then
    let r := s.drop 7
    let w := r.takeWhile (neChar ',')
    let rest := r.dropWhile (neChar ',')
    if rest.take 3 = (", \"").data then
      let r2 := rest.drop 3
      let tpl := r2.takeWhile (neChar '"')
      let rest2 := r2.dropWhile (neChar '"')
      if rest2.take 1 = ['"'] then
        let r3 := rest2.drop 1
        if r3 = [')'] then some (w, tpl, [])
        else if (", ".data).isPrefixOf r3 ∧ r3.getLast? = some ')' then
          some (w, tpl, (r3.drop 2).dropLast)
        else none
      else none
    else none
  else none

/-- One step of the string-literal-aware parenthesis scan: `(depth, inString,
ok)` where `ok` records that the depth never went negative outside a string
literal. -/
def parScanStep : Int × Bool × Bool → Char → Int × Bool × Bool
  | (d, inStr, ok), c =>
    if inStr then (d, c ≠ '"', ok)
    else if c = '"' then (d, true, ok)
    else if c = '(' then (d + 1, false, ok)
    else if c = ')' then (d - 1, false, ok && decide (0 ≤ d - 1))
    else (d, false, ok)

/-- Scan a string, tracking parenthesis depth outside string literals. -/
def parScan (st : Int × Bool × Bool) (s : List Char) : Int × Bool × Bool :=
  s.foldl parScanStep st

/-- Syntactic well-formedness used by the spec's "balanced rewrite" property:
outside string literals the parentheses balance and never go negative, and
every string literal is closed. -/
def wellBalanced (s : List Char) : Bool :=
  let r := parScan (0, false, true) s
  r.2.2 && decide (r.1 = 0) && !r.2.1

/-! ## Concrete inputs used in the claim analyses -/

/-- `format!("{a.b}{c.d}{e.f}")` — three dotted embedded expressions. -/
def tripleDotted : List Char := "format!(\"\x7ba.b\x7d\x7bc.d\x7d\x7be.f\x7d\")".data

/-- `format!("{}", a)` — a bare placeholder with one explicit argument. -/
def bareAdv : List Char := "format!(\"\x7b\x7d\", a)".data

/-- `format!("{} {x.y}", a)` — a bare placeholder before a dotted expression. -/
def swapCall : List Char := "format!(\"\x7b\x7d \x7bx.y\x7d\", a)".data

/-- `format!("{}", foo(x))` — an argument containing a nested call. -/
def nestedParenCall : List Char := "format!(\"\x7b\x7d\", foo(x))".data

/-- `format!("{{x.y}}")` — a doubled open marker intended as literal text. -/
def doubledCall : List Char := "format!(\"\x7b\x7bx.y\x7d\x7d\")".data

/-- `format!("{} ok", a)` — already-normalized text: a bare placeholder only. -/
def bareCall : List Char := "format!(\"\x7b\x7d ok\", a)".data

/-- `format!("{}", a, b > c, d)` — a comparison operator inside an argument. -/
def dropArgsCall : List Char := "format!(\"\x7b\x7d\", a, b > c, d)".data

/-- Text whose candidates do not match the invocation grammar. -/
def noShapeCall : List Char := "format!(\"no args\") and write!(w) here".data

/-! ## The File Driver model (`process_file` and `main` of the advanced script)

File I/O is embedded as an association list from path to file state; a read
failure and a write failure each carry the exception text that Python would
report.  `process_file` catches every exception, prints an error line naming
the path and the cause, and returns `False` for that file. -/

/-- One file of the model file system: readable content with an optional
write-failure cause, or an unreadable file with its read-failure cause. -/
inductive FEntry where
  | readable : List Char → Option (List Char) → FEntry
  | unreadable : List Char → FEntry
deriving DecidableEq

/-- A model file system. -/
abbrev FSys := List (List Char × FEntry)

/-- Look a path up (first entry wins, like a real directory). -/
def fsFind (fs : FSys) (p : List Char) : Option FEntry :=
  match fs with
  | [] => none
  | e :: rest => if e.1 = p then some e.2 else fsFind rest p

/-- Overwrite the content at `p`, keeping the write-failure flag. -/
def fsWrite (fs : FSys) (p c : List Char) : FSys :=
  match fs with
  | [] => []
  | e :: rest =>
    if e.1 = p then
      (e.1, match e.2 with
            | .readable _ w => FEntry.readable c w
            | x => x) :: fsWrite rest p c
    else e :: fsWrite rest p c

/-- The `Error processing {filepath}: {e}` line printed by `process_file`. -/
def errLine (p cause : List Char) : List Char :=
  "Error processing ".data ++ p ++ ": ".data ++ cause

/-- `process_file` from `scripts/fix_format_strings_advanced.py` (lines
141–157): read, normalize, write back only when the text changed; an I/O
failure is caught, reported with the path and cause, and answered with
`false` instead of propagating. -/
def process_file (fs : FSys) (p : List Char) :
    FSys × Bool × List (List Char) :=
  match fsFind fs p with
  | none => (fs, false, [errLine p "No such file or directory".data])
  | some (.unreadable cause) => (fs, false, [errLine p cause])
  | some (.readable c werr) =>
    let fixed := fix_format_strings c
    if fixed = c then (fs, false, [])
    else
      match werr with
      | some cause => (fs, false, [errLine p cause])
      | none => (fsWrite fs p fixed, true, [])

/-- The eligible file paths of `main` (advanced, lines 159–179): walk
entries `(root, files)` in order, skip roots containing `target` or
`bevy-patched`, keep file names ending in `.rs`, and join root and name
with `/` (`os.path.join`). -/
def eligiblePaths (walks : List (List Char × List (List Char))) :
    List (List Char) :=
  walks.flatMap fun rf =>
    if containsSub "target".data rf.1 ∨ containsSub "bevy-patched".data rf.1 then []
    else (rf.2.filter fun f => (".rs".data).isSuffixOf f).map fun f =>
      rf.1 ++ "/".data ++ f

/-- Accumulated state of the driver run: file system, files scanned, files
fixed, report lines. -/
structure DriveState where
  fsys : FSys
  total : Nat
  fixedCount : Nat
  logs : List (List Char)

/-- One file of the `main` loop: process it, bump the counters, collect the
report lines. -/
def driveStep (st : DriveState) (p : List Char) : DriveState :=
  let r := process_file st.fsys p
  { fsys := r.1
    total := st.total + 1
    fixedCount := st.fixedCount + (if r.2.1 then 1 else 0)
    logs := st.logs ++ r.2.2 ++ (if r.2.1 then ["Fixed: ".data ++ p] else []) }

/-- The `Processed {total} files, fixed {fixed} files` summary of `main`. -/
def summaryLine (total fixedCount : Nat) : List Char :=
  "Processed ".data ++ Nat.toDigits 10 total ++ " files, fixed ".data ++
    Nat.toDigits 10 fixedCount ++ " files".data

/-- `main` (advanced, lines 159–179) over the model: process every eligible
file left to right, then report the counts. -/
def mainRun (walks : List (List Char × List (List Char))) (fs : FSys) :
    DriveState :=
  let final := (eligiblePaths walks).foldl driveStep ⟨fs, 0, 0, []⟩
  { final with logs := final.logs ++ [summaryLine final.total final.fixedCount] }

/-- Whether `main` writes a given file: readable, writable, and changed by
the normalization. -/
def wouldFix (fs : FSys) (p : List Char) : Bool :=
  match fsFind fs p with
  | some (.readable c none) => decide (fix_format_strings c ≠ c)
  | _ => false

/-- A concrete walk for the driver: one source root and one excluded
build-artifact root. -/
def walksW : List (List Char × List (List Char)) :=
  [("src".data, ["a.rs".data, "b.rs".data, "c.rs".data, "note.txt".data]),
   ("target".data, ["d.rs".data])]

/-- A concrete file system for the driver: one file the fixer changes, one
it leaves alone, one unreadable file, one non-Rust file, and one file under
the excluded root. -/
def fsW : FSys :=
  [("src/a.rs".data, .readable "format!(\"\x7b\x7d\", a)".data none),
   ("src/b.rs".data, .readable "fn main()".data none),
   ("src/c.rs".data, .unreadable "Permission denied".data),
   ("src/note.txt".data, .readable "format!(\"\x7b\x7d\", a)".data none),
   ("target/d.rs".data, .readable "format!(\"\x7b\x7d\", a)".data none)]

/-! ## The vocabulary projector (`scripts/generate-vocabulary-md.py`)

The JSON input is embedded as structures whose `Option` fields model absent
keys; Python dicts that the script builds are embedded as insertion-ordered
association lists, which is exactly the iteration order Python guarantees.
The generated document is kept as the list of lines that the script joins. -/

/-- A term of the vocabulary graph (the keys the script reads). -/
structure VTerm where
  tname : Option (List Char)
  tid : Option (List Char)
  ttype : Option (List Char)
  ttaxonomy : Option (List Char)
  tdefinition : Option (List Char)
  trelationships : List (List Char × List (List Char))
  tusage : Option (List Char)
  tcode : Option (List Char)
  tcategory : List Char
  tsubcategory : Option (List Char)
deriving DecidableEq

/-- A declared subcategory. -/
structure VSubcat where
  sid : List Char
  sname : List Char
  sdescription : Option (List Char)
deriving DecidableEq

/-- A declared category. -/
structure VCategory where
  cid : List Char
  cname : List Char
  cdescription : Option (List Char)
  csubcategories : Option (List VSubcat)
deriving DecidableEq

/-- A vocabulary graph document. -/
structure Vocab where
  categories : List VCategory
  terms : List VTerm
deriving DecidableEq

/-- Python truthiness of an optional string: `None` and `""` are falsy. -/
def truthy (o : Option (List Char)) : Bool := (o.getD []) ≠ []

/-- Python `str.title()` (ASCII behaviour): uppercase a letter following a
non-letter, lowercase a letter following a letter. -/
def pyTitleGo : Bool → List Char → List Char
  | _, [] => []
  | prevAlpha, c :: cs =>
    (if c.isAlpha then (if prevAlpha then c.toLower else c.toUpper) else c) ::
      pyTitleGo c.isAlpha cs

/-- Python `str.title()`. -/
def pyTitle (s : List Char) : List Char := pyTitleGo false s

/-- Python `str.rfind(pat)` in its found case: the start index of the last
occurrence. -/
def rfindSub (s pat : List Char) : Option Nat :=
  ((List.range (s.length + 1)).filter fun i => pat.isPrefixOf (s.drop i)).getLast?

/-- `format_term_name` (lines 21–27): prefer `name` over `id`, and cut a
trailing parenthetical suffix. -/
def format_term_name (t : VTerm) : List Char :=
  let nm := t.tname.getD (t.tid.getD [])
  if containsSub " (".data nm ∧ nm.getLast? = some ')' then
    match rfindSub nm " (".data with
    | some i => nm.take i
    | none => nm
  else nm

/-- `format_relationships` (lines 30–41): one bullet line per relation kind. -/
def format_relationships (rels : List (List Char × List (List Char))) :
    List Char :=
  if rels = [] then []
  else
    joinSep "\n".data (rels.map fun r =>
      "  * ".data ++ pyTitle (replaceAll "-".data " ".data r.1) ++ ": ".data ++
        joinSep ", ".data r.2)

/-- `generate_term_section` (lines 44–63): one term as a labeled-field
block, a single string joined with newlines. -/
def generate_term_section (t : VTerm) (level : List Char) : List Char :=
  joinSep "\n".data
    ([level ++ " Term: ".data ++ format_term_name t,
      "- **Category**: ".data ++ t.ttype.getD "Unknown".data,
      "- **Type**: ".data ++ t.ttype.getD "Unknown".data] ++
     (if truthy t.ttaxonomy then
        ["- **Taxonomy**: ".data ++ t.ttaxonomy.getD []] else []) ++
     ["- **Definition**: ".data ++ t.tdefinition.getD "No definition provided".data,
      "- **Relationships**:".data,
      format_relationships t.trelationships,
      "- **Usage Context**: ".data ++ t.tusage.getD "Not specified".data,
      if truthy t.tcode then
        "- **Code Reference**: `".data ++ t.tcode.getD "TBD".data ++ "`".data
      else "- **Code Reference**: TBD".data])

/-- The per-category grouping record that `generate_markdown` builds:
terms keyed by subcategory id, and the direct terms. -/
structure CatGroup where
  subcats : List (List Char × List VTerm)
  direct : List VTerm
deriving DecidableEq

/-- The `{'subcategories': {}}` entry created for a fresh category. -/
def emptyCatGroup : CatGroup := ⟨[], []⟩

/-- Append `v` to the list at key `k` (first occurrence), creating the key
at the end if missing — Python dict/list insertion semantics. -/
def assocAppend (l : List (List Char × List VTerm)) (k : List Char)
    (v : VTerm) : List (List Char × List VTerm) :=
  match l with
  | [] => [(k, [v])]
  | (k1, vs) :: rest =>
    if k1 = k then (k1, vs ++ [v]) :: rest else (k1, vs) :: assocAppend rest k v

/-- Update the group of `cat` (first occurrence), creating an empty group at
the end if missing. -/
def groupUpdate (g : List (List Char × CatGroup)) (cat : List Char)
    (f : CatGroup → CatGroup) : List (List Char × CatGroup) :=
  match g with
  | [] => [(cat, f emptyCatGroup)]
  | (k, cg) :: rest =>
    if k = cat then (k, f cg) :: rest else (k, cg) :: groupUpdate rest cat f

/-- One term of the grouping loop of `generate_markdown` (lines 76–91).
The test `if subcat_id:` at line 84 is a Python truthiness test: a missing
subcategory and an empty-string subcategory both send the term to the
`direct` list. -/
def groupStep (g : List (List Char × CatGroup)) (t : VTerm) :
    List (List Char × CatGroup) :=
  groupUpdate g t.tcategory fun cg =>
    if truthy t.tsubcategory then
      { cg with subcats := assocAppend cg.subcats (t.tsubcategory.getD []) t }
    else
      { cg with direct := cg.direct ++ [t] }

/-- The `terms_by_category` dict of `generate_markdown`. -/
def groupTerms (ts : List VTerm) : List (List Char × CatGroup) :=
  ts.foldl groupStep []

/-- Key lookup in an insertion-ordered association list. -/
def assocFind {A : Type} (l : List (List Char × A)) (k : List Char) :
    Option A :=
  match l with
  | [] => none
  | e :: rest => if e.1 = k then some e.2 else assocFind rest k

/-- Key lookup in the grouping dict. -/
def groupFind (g : List (List Char × CatGroup)) (cat : List Char) :
    Option CatGroup :=
  assocFind g cat

/-- The direct-term list filed under a category id. -/
def lookupDirect (g : List (List Char × CatGroup)) (cid : List Char) :
    List VTerm :=
  ((groupFind g cid).getD emptyCatGroup).direct

/-- The term list filed under a category id and subcategory id. -/
def lookupSub (g : List (List Char × CatGroup)) (cid sid : List Char) :
    List VTerm :=
  (assocFind ((groupFind g cid).getD emptyCatGroup).subcats sid).getD []

/-- The lines contributed by a run of terms: each term block followed by a
blank line. -/
def termLines (level : List Char) : List VTerm → List (List Char)
  | [] => []
  | t :: ts => generate_term_section t level :: [] :: termLines level ts

/-- The lines contributed by the declared subcategories of one category
(lines 111–131). -/
def subcatLines (cg : CatGroup) : List VSubcat → List (List Char)
  | [] => []
  | sc :: rest =>
    (match assocFind cg.subcats sc.sid with
     | none => []
     | some ts =>
       ["### ".data ++ sc.sname, []] ++
       (if truthy sc.sdescription then
          ["*".data ++ sc.sdescription.getD [] ++ "*".data, []] else []) ++
       termLines "####".data ts) ++
    subcatLines cg rest

/-- The section of one category (lines 94–139): skipped entirely when no
term references the category. -/
def sectionFor (g : List (List Char × CatGroup)) (c : VCategory) :
    List (List Char) :=
  match groupFind g c.cid with
  | none => []
  | some cg =>
    ["## ".data ++ c.cname, []] ++
    (if truthy c.cdescription then
       ["*".data ++ c.cdescription.getD [] ++ "*".data, []] else []) ++
    subcatLines cg (c.csubcategories.getD []) ++
    termLines "###".data cg.direct

/-- All category sections, in declaration order. -/
def sectionsFor (g : List (List Char × CatGroup)) :
    List VCategory → List (List Char)
  | [] => []
  | c :: cs => sectionFor g c ++ sectionsFor g cs

/-- `generate_markdown` (lines 66–148), as the list of lines it joins. -/
def generate_markdown (v : Vocab) : List (List Char) :=
  ["# CIM Vocabulary".data, [], "[← Back to Index](index.md)".data, []] ++
  sectionsFor (groupTerms v.terms) v.categories ++
  ["---".data, [],
   "*This vocabulary is continuously updated as the system evolves. For the latest implementation details, refer to the source code and documentation.*".data]

/-- The term count reported by `main` (line 178): the length of the input
`terms` list, whether or not a term was rendered. -/
def reportedTermCount (v : Vocab) : Nat := v.terms.length

/-- Does a line look like a category heading? -/
def headingPred (l : List Char) : Bool := ("## ".data).isPrefixOf l

/-- Does a line look like a term-block heading? -/
def termBlockPred (l : List Char) : Bool :=
  ("### Term: ".data).isPrefixOf l || ("#### Term: ".data).isPrefixOf l

/-- The category-heading lines of a generated document. -/
def headingLines (ls : List (List Char)) : List (List Char) :=
  ls.filter headingPred

/-- The term-block lines of a generated document. -/
def termBlockLines (ls : List (List Char)) : List (List Char) :=
  ls.filter termBlockPred

/-- A term whose category id is undeclared, or whose subcategory id is
truthy (neither missing nor the empty string, mirroring the `if subcat_id:`
test of line 84) and not declared among its category's subcategories. -/
def badTerm (t : VTerm) (cats : List VCategory) : Bool :=
  (cats.all fun c => ¬ (c.cid = t.tcategory)) ||
  (truthy t.tsubcategory &&
    cats.all fun c =>
      ¬ (c.cid = t.tcategory) ||
      ((c.csubcategories.getD []).all fun sc =>
        ¬ (sc.sid = t.tsubcategory.getD [])))

/-- Subcategory names that cannot fake a term-block line in the output: a
subcategory heading is `### ` followed by the name, so only a name starting
with `Term: ` could collide with a term block. -/
def cleanCats (cats : List VCategory) : Bool :=
  cats.all fun c =>
    (c.csubcategories.getD []).all fun sc =>
      !(("Term: ".data).isPrefixOf sc.sname)

/-- The term blocks of the projection, computed directly from the input by
filters: for each declared category, the blocks of the terms filed under
each declared subcategory (a term is filed under a subcategory only when
its subcategory id is truthy, per the `if subcat_id:` test), and after them
the direct terms — those with a missing or empty subcategory id. -/
def renderedBlocks (ts : List VTerm) : List VCategory → List (List Char)
  | [] => []
  | c :: cs =>
    ((c.csubcategories.getD []).flatMap fun sc =>
      (ts.filter fun t =>
        decide (t.tcategory = c.cid) && (truthy t.tsubcategory &&
          decide (t.tsubcategory.getD [] = sc.sid))).map
        fun t => generate_term_section t "####".data) ++
    ((ts.filter fun t =>
        decide (t.tcategory = c.cid) && !truthy t.tsubcategory).map
      fun t => generate_term_section t "###".data) ++
    renderedBlocks ts cs

/-- A one-category vocabulary for the concrete checks: category `core`
with one declared subcategory `sub`. -/
def mkTerm (nm cat : List Char) (sub : Option (List Char)) : VTerm :=
  ⟨some nm, none, some "Entity".data, none, some "A thing".data, [],
    none, none, cat, sub⟩

def catsW : List VCategory :=
  [⟨"core".data, "Core".data, none,
    some [⟨"sub".data, "Sub".data, none⟩]⟩]

def goodT : VTerm := mkTerm "Good".data "core".data (some "sub".data)

def badT : VTerm := mkTerm "Ghost".data "core".data (some "nope".data)

/-- A term of the declared category `core` whose subcategory id is the
empty string — falsy in Python, so the grouping loop files it under
`direct`. -/
def emptySubT : VTerm := mkTerm "Plain".data "core".data (some [])

def vBadCat : Vocab :=
  ⟨[⟨"core".data, "Core".data, none, none⟩],
   [mkTerm "Orphan".data "ghost".data none]⟩

/-! ## The no-match case of `re.sub` -/

/-- If a pattern matches nowhere in `s`, one `re.sub` pass copies `s`
verbatim. -/
theorem reSubGo_of_noMatch (re : RE) (rep : List Char → Caps → List Char) :
    ∀ (fuel : Nat) (s : List Char), hasMatchB re s = false →
      reSubGo re rep fuel s = s := by
  intro fuel
  induction fuel with
  | zero => intro s _; rfl
  | succ f ih =>
    intro s h
    cases s with
    | nil =>
      have h0 : (tryMatch re []).isSome = false := by simpa [hasMatchB] using h
      have hnone : tryMatch re [] = none := by
        cases hm : tryMatch re [] with
        | none => rfl
        | some v => rw [hm] at h0; simp at h0
      simp [reSubGo, hnone]
    | cons c cs =>
      have h' : (tryMatch re (c :: cs)).isSome = false ∧ hasMatchB re cs = false := by
        simpa [hasMatchB, Bool.or_eq_false_iff] using h
      have hnone : tryMatch re (c :: cs) = none := by
        cases hm : tryMatch re (c :: cs) with
        | none => rfl
        | some v => rw [hm] at h'; simp at h'
      simp [reSubGo, hnone, ih cs h'.2]

/-- If a pattern matches nowhere in `s`, `re.sub` returns `s` unchanged. -/
theorem reSub_of_noMatch (re : RE) (rep : List Char → Caps → List Char)
    (s : List Char) (h : hasMatchB re s = false) : reSub re rep s = s :=
  reSubGo_of_noMatch re rep (s.length + 1) s h

/-! ## List helpers for the parser proofs -/

theorem isPrefixOf_append_self (a b : List Char) : a.isPrefixOf (a ++ b) = true := by
  induction a with
  | nil => simp [List.isPrefixOf]
  | cons c cs ih => simp [List.isPrefixOf, ih]

theorem getLast?_append_singleton (a : List Char) (c : Char) :
    (a ++ [c]).getLast? = some c := by
  simp [List.getLast?_append]

theorem dropLast_append_singleton (a : List Char) (c : Char) :
    (a ++ [c]).dropLast = a := by
  simp

theorem takeWhile_to_stop (stop : Char) (t u : List Char)
    (h : ∀ c ∈ t, c ≠ stop) :
    (t ++ stop :: u).takeWhile (neChar stop) = t := by
  induction t with
  | nil => simp [neChar]
  | cons c cs ih =>
    have hc : c ≠ stop := h c (List.mem_cons_self c cs)
    have ih2 := ih fun x hx => h x (List.mem_cons_of_mem c hx)
    simp only [List.cons_append, List.takeWhile_cons, neChar] at ih2 ⊢
    simp [hc, ih2]

theorem dropWhile_to_stop (stop : Char) (t u : List Char)
    (h : ∀ c ∈ t, c ≠ stop) :
    (t ++ stop :: u).dropWhile (neChar stop) = stop :: u := by
  induction t with
  | nil => simp [neChar]
  | cons c cs ih =>
    have hc : c ≠ stop := h c (List.mem_cons_self c cs)
    have ih2 := ih fun x hx => h x (List.mem_cons_of_mem c hx)
    simp only [List.cons_append, List.dropWhile_cons, neChar] at ih2 ⊢
    simp [hc, ih2]

theorem drop_length_append {a : List Char} (b : List Char) {n : Nat}
    (h : a.length = n) : (a ++ b).drop n = b := by
  subst h; exact List.drop_left a b

/-! ## Inverting the call builders -/

theorem parseFmtCall_build (T A : List Char) (hT : ∀ c ∈ T, c ≠ '"') :
    parseFmtCall ("format!(\"".data ++ T ++ "\", ".data ++ A ++ ")".data) =
      some (T, A) := by
  have key : "format!(\"".data ++ T ++ "\", ".data ++ A ++ ")".data =
      "format!(\"".data ++ (T ++ '"' :: (", ".data ++ (A ++ [')']))) := by
    have e1 : ("\", ".data : List Char) = '"' :: ", ".data := rfl
    have e2 : ((")").data : List Char) = [')'] := rfl
    simp [e1, e2, List.append_assoc]
  rw [key]
  unfold parseFmtCall
  rw [isPrefixOf_append_self]
  simp only [if_true]
  rw [drop_length_append _ (by rfl : ("format!(\"".data : List Char).length = 9)]
  rw [takeWhile_to_stop _ _ _ hT, dropWhile_to_stop _ _ _ hT]
  simp only [List.take_succ_cons, List.take_zero, List.drop_succ_cons,
    List.drop_zero, List.cons_append, List.nil_append]
  rw [if_pos trivial]
  have hne : ¬ ((',' :: ' ' :: (A ++ [')'])) = [')']) := by simp
  rw [if_neg hne]
  have hpre : ([',', ' '] : List Char).isPrefixOf (',' :: ' ' :: (A ++ [')'])) = true :=
    isPrefixOf_append_self [',', ' '] (A ++ [')'])
  have hlast : ((',' :: ' ' :: (A ++ [')'])) : List Char).getLast? = some ')' :=
    getLast?_append_singleton (',' :: ' ' :: A) ')'
  rw [if_pos ⟨hpre, hlast⟩]
  rw [show (A ++ [')']).dropLast = A from dropLast_append_singleton _ _]

theorem parseFmtCall_build0 (T : List Char) (hT : ∀ c ∈ T, c ≠ '"') :
    parseFmtCall ("format!(\"".data ++ T ++ "\")".data) = some (T, []) := by
  have key : "format!(\"".data ++ T ++ "\")".data =
      "format!(\"".data ++ (T ++ '"' :: [')']) := by
    have e1 : ("\")".data : List Char) = '"' :: [')'] := rfl
    simp [e1, List.append_assoc]
  rw [key]
  unfold parseFmtCall
  rw [isPrefixOf_append_self]
  simp only [if_true]
  rw [drop_length_append _ (by rfl : ("format!(\"".data : List Char).length = 9)]
  rw [takeWhile_to_stop _ _ _ hT, dropWhile_to_stop _ _ _ hT]
  simp

theorem parseWriteCall_build (W T A : List Char) (hW : ∀ c ∈ W, c ≠ ',')
    (hT : ∀ c ∈ T, c ≠ '"') :
    parseWriteCall ("write!(".data ++ W ++ ", \"".data ++ T ++ "\", ".data ++
        A ++ ")".data) = some (W, T, A) := by
  have key : "write!(".data ++ W ++ ", \"".data ++ T ++ "\", ".data ++ A ++ ")".data =
      "write!(".data ++ (W ++ ',' :: (' ' :: '"' ::
        (T ++ '"' :: (',' :: ' ' :: (A ++ [')']))))) := by
    have e1 : (", \"".data : List Char) = ',' :: ' ' :: '"' :: [] := rfl
    have e2 : ("\", ".data : List Char) = '"' :: ',' :: ' ' :: [] := rfl
    have e3 : ((")").data : List Char) = [')'] := rfl
    simp [e1, e2, e3, List.append_assoc]
  rw [key]
  unfold parseWriteCall
  rw [isPrefixOf_append_self]
  simp only [if_true]
  rw [drop_length_append _ (by rfl : ("write!(".data : List Char).length = 7)]
  rw [takeWhile_to_stop _ _ _ hW, dropWhile_to_stop _ _ _ hW]
  simp only [List.take_succ_cons, List.take_zero, List.drop_succ_cons,
    List.drop_zero, List.cons_append, List.nil_append]
  rw [if_pos trivial]
  rw [takeWhile_to_stop _ _ _ hT, dropWhile_to_stop _ _ _ hT]
  simp only [List.take_succ_cons, List.take_zero, List.drop_succ_cons,
    List.drop_zero, List.cons_append, List.nil_append]
  rw [if_pos trivial]
  have hne : ¬ ((',' :: ' ' :: (A ++ [')'])) = [')']) := by simp
  rw [if_neg hne]
  have hpre : ([',', ' '] : List Char).isPrefixOf (',' :: ' ' :: (A ++ [')'])) = true :=
    isPrefixOf_append_self [',', ' '] (A ++ [')'])
  have hlast : ((',' :: ' ' :: (A ++ [')'])) : List Char).getLast? = some ')' :=
    getLast?_append_singleton (',' :: ' ' :: A) ')'
  rw [if_pos ⟨hpre, hlast⟩]
  rw [show (A ++ [')']).dropLast = A from dropLast_append_singleton _ _]

theorem parseWriteCall_build0 (W T : List Char) (hW : ∀ c ∈ W, c ≠ ',')
    (hT : ∀ c ∈ T, c ≠ '"') :
    parseWriteCall ("write!(".data ++ W ++ ", \"".data ++ T ++ "\")".data) =
      some (W, T, []) := by
  have key : "write!(".data ++ W ++ ", \"".data ++ T ++ "\")".data =
      "write!(".data ++ (W ++ ',' :: (' ' :: '"' :: (T ++ '"' :: [')']))) := by
    have e1 : (", \"".data : List Char) = ',' :: ' ' :: '"' :: [] := rfl
    have e2 : ("\")".data : List Char) = '"' :: [')'] := rfl
    simp [e1, e2, List.append_assoc]
  rw [key]
  unfold parseWriteCall
  rw [isPrefixOf_append_self]
  simp only [if_true]
  rw [drop_length_append _ (by rfl : ("write!(".data : List Char).length = 7)]
  rw [takeWhile_to_stop _ _ _ hW, dropWhile_to_stop _ _ _ hW]
  simp only [List.take_succ_cons, List.take_zero, List.drop_succ_cons,
    List.drop_zero, List.cons_append, List.nil_append]
  rw [if_pos trivial]
  rw [takeWhile_to_stop _ _ _ hT, dropWhile_to_stop _ _ _ hT]
  simp

/-- The template of a phase2 rewrite is quote-free when its captured
segments are. -/
theorem noQuote_tpl {g1 g3 : List Char} (h1 : ∀ c ∈ g1, c ≠ '"')
    (h3 : ∀ c ∈ g3, c ≠ '"') :
    ∀ c ∈ g1 ++ "\x7b\x7d".data ++ g3, c ≠ '"' := by
  intro c hc
  rcases List.mem_append.1 hc with hc2 | hc2
  · rcases List.mem_append.1 hc2 with hc3 | hc3
    · exact h1 c hc3
    · have : c = '\x7b' ∨ c = '\x7d' := by simpa using hc3
      rcases this with rfl | rfl <;> decide
  · exact h3 c hc2

/-! ## The claims -/

/-- C1, counterexample: the normalization is not idempotent — a second run
of the phase2 fixer on its own output of
`format!("{a.b}{c.d}{e.f}")` produces a further change — and text whose
template contains only bare placeholders does not pass through the advanced
fixer unchanged: `format!("{}", a)` is rewritten to `format!("{a}")`. -/
theorem c1_counterexample :
    fix_format_string_field_access (fix_format_string_field_access tripleDotted) ≠
      fix_format_string_field_access tripleDotted ∧
    fix_format_strings bareAdv ≠ bareAdv :=
  ⟨by decide, by decide⟩

/-- C1 (amended): text on which none of the three phase2 patterns matches
anywhere — in particular text whose templates contain only bare
placeholders and no dotted field access — is returned unchanged by the
phase2 fixer; full idempotence fails because each pattern pass rewrites at
most one dotted expression per invocation. -/
theorem c1_phase2_noMatch_fixpoint (s : List Char)
    (h1 : hasMatchB p2pat1 s = false) (h2 : hasMatchB p2pat2 s = false)
    (h3 : hasMatchB p2pat3 s = false) :
    fix_format_string_field_access s = s := by
  simp only [fix_format_string_field_access]
  rw [reSub_of_noMatch _ _ _ h1, reSub_of_noMatch _ _ _ h2,
    reSub_of_noMatch _ _ _ h3]

/-- C1, witness: `format!("{} ok", a)` has a bare placeholder only, matches
none of the phase2 patterns, and passes through unchanged. -/
theorem c1_witness :
    hasMatchB p2pat1 bareCall = false ∧ hasMatchB p2pat2 bareCall = false ∧
    hasMatchB p2pat3 bareCall = false ∧
    fix_format_string_field_access bareCall = bareCall :=
  ⟨by decide, by decide, by decide,
    c1_phase2_noMatch_fixpoint bareCall (by decide) (by decide) (by decide)⟩

/-- C2: rewriting `format!("{} {x.y}", a)` does not preserve rendering
semantics.  The phase2 fixer rewrites it to `format!("{} {}", x.y, a)`,
whose rendering swaps the two rendered values: the original renders the
value of `a` and then the value of `x.y`, the rewrite renders `x.y` first. -/
theorem c2_render_order_swapped :
    fix_format_string_field_access swapCall =
      "format!(\"\x7b\x7d \x7b\x7d\", x.y, a)".data ∧
    renderTpl "\x7b\x7d \x7bx.y\x7d".data ["a".data] ≠
      renderTpl "\x7b\x7d \x7b\x7d".data ["x.y".data, "a".data] :=
  ⟨by decide, by decide⟩

/-- C3, counterexample: the advanced fixer does not emit the explicit
arguments unmodified — on `format!("{}", a, b > c, d)` its depth tracker
treats `>` as a closing bracket, breaks out of the argument split, and the
rewrite `format!("{a}")` drops the arguments `b > c` and `d` entirely. -/
theorem c3_counterexample :
    fix_format_strings dropArgsCall = "format!(\"\x7ba\x7d\")".data ∧
    containsSub "d".data dropArgsCall = true ∧
    containsSub "d".data (fix_format_strings dropArgsCall) = false :=
  ⟨by decide, by decide, by decide⟩

/-- C3 (amended): for the phase2 rewrites the order invariant holds —
parsing the rewritten call back, the template is the original text with the
dotted expression replaced by a bare placeholder, and the argument text is
the extracted expression followed by the original explicit-argument text,
verbatim and in order.  (The advanced fixer re-splits arguments and can
drop or trim them; see the counterexample.) -/
theorem c3_phase2_extracted_precede_existing (g1 g2 g3 g4 : List Char)
    (h1 : ∀ c ∈ g1, c ≠ '"') (h3 : ∀ c ∈ g3, c ≠ '"') :
    parseFmtCall (replacer2 g1 g2 g3 g4) =
      some (g1 ++ "\x7b\x7d".data ++ g3, g2 ++ ", ".data ++ g4) ∧
    parseFmtCall (replacer g1 g2 g3) =
      some (g1 ++ "\x7b\x7d".data ++ g3, g2) := by
  have hT := noQuote_tpl h1 h3
  constructor
  · have hshape : replacer2 g1 g2 g3 g4 =
        "format!(\"".data ++ (g1 ++ "\x7b\x7d".data ++ g3) ++ "\", ".data ++
          (g2 ++ ", ".data ++ g4) ++ ")".data := by
      unfold replacer2
      simp [List.append_assoc]
    rw [hshape, parseFmtCall_build _ _ hT]
  · have hshape : replacer g1 g2 g3 =
        "format!(\"".data ++ (g1 ++ "\x7b\x7d".data ++ g3) ++ "\", ".data ++
          g2 ++ ")".data := by
      unfold replacer
      simp [List.append_assoc]
    rw [hshape, parseFmtCall_build _ _ hT]

/-- C3, witness: a concrete phase2 rewrite, parsed back. -/
theorem c3_witness :
    parseFmtCall (replacer2 "id=".data "self.id".data "!".data "x, y".data) =
      some ("id=\x7b\x7d!".data, "self.id, x, y".data) := by
  have h := (c3_phase2_extracted_precede_existing "id=".data "self.id".data
    "!".data "x, y".data (by decide) (by decide)).1
  rw [h]
  decide

/-- C4: the rewritten invocation text is not always well-formed.  The
well-formed input `format!("{}", foo(x))` is rewritten by the advanced
fixer to `format!("{foo(x}"))` — the regex cannot cross the nested
parenthesis, so the match stops inside the argument and the output has an
unbalanced parenthesis and an unclosed brace in the template. -/
theorem c4_unbalanced_rewrite :
    wellBalanced nestedParenCall = true ∧
    fix_format_strings nestedParenCall = "format!(\"\x7bfoo(x\x7d\"))".data ∧
    wellBalanced (fix_format_strings nestedParenCall) = false :=
  ⟨by decide, by decide, by decide⟩

/-- C5: a doubled open marker is not treated as literal text.  On
`format!("{{x.y}}")` the phase2 fixer matches the second `{` of the doubled
marker as the start of an embedded dotted expression and rewrites the call
to `format!("{}}", {x.y)` — no doubled marker survives in the output. -/
theorem c5_doubled_marker_consumed :
    fix_format_string_field_access doubledCall =
      "format!(\"\x7b\x7d\x7d\", \x7bx.y)".data ∧
    countSub "\x7b\x7b".data doubledCall = 1 ∧
    countSub "\x7b\x7b".data (fix_format_string_field_access doubledCall) = 0 :=
  ⟨by decide, by decide, by decide⟩

/-- C7: text in which none of the advanced script's four patterns matches
anywhere is returned verbatim — candidates whose shape is not recognized
are left unchanged, as an ordinary return value (every embedded function is
total; no failure path exists). -/
theorem c7_no_match_left_verbatim (s : List Char)
    (h1 : hasMatchB (advPat "format".data) s = false)
    (h2 : hasMatchB (advPat "println".data) s = false)
    (h3 : hasMatchB (advPat "eprintln".data) s = false)
    (h4 : hasMatchB advWritePat s = false) :
    fix_format_strings s = s := by
  simp only [fix_format_strings]
  rw [reSub_of_noMatch _ _ _ h1, reSub_of_noMatch _ _ _ h2,
    reSub_of_noMatch _ _ _ h3, reSub_of_noMatch _ _ _ h4]

/-- C7, witness: text containing a `format!` call without trailing
arguments and a malformed `write!` candidate matches no pattern and passes
through verbatim. -/
theorem c7_witness :
    hasMatchB (advPat "format".data) noShapeCall = false ∧
    hasMatchB (advPat "println".data) noShapeCall = false ∧
    hasMatchB (advPat "eprintln".data) noShapeCall = false ∧
    hasMatchB advWritePat noShapeCall = false ∧
    fix_format_strings noShapeCall = noShapeCall :=
  ⟨by decide, by decide, by decide, by decide,
    c7_no_match_left_verbatim noShapeCall (by decide) (by decide) (by decide)
      (by decide)⟩

/-- C6: for every write-to rewrite the writer expression is re-emitted
first and byte-for-byte unchanged, ahead of the template, and never appears
in the argument list: parsing back the output of the phase2 `replacer3` and
of the two write replacements of the final script yields the writer text
unchanged, the template with a bare placeholder, and an argument text
consisting solely of the extracted expression. -/
theorem c6_writer_first_unchanged (w p f1 f2 sfx : List Char)
    (hw : ∀ c ∈ w, c ≠ ',') (hp : ∀ c ∈ p, c ≠ '"') (hs : ∀ c ∈ sfx, c ≠ '"') :
    parseWriteCall (replacer3 w p f1 sfx) =
      some (w, p ++ "\x7b\x7d".data ++ sfx, f1) ∧
    parseWriteCall (finalWriteReplSelf w p f1 sfx) =
      some (w, p ++ "\x7b\x7d".data ++ sfx, "self.".data ++ f1) ∧
    parseWriteCall (finalWriteReplVar w p f1 f2 sfx) =
      some (w, p ++ "\x7b\x7d".data ++ sfx, f1 ++ ".".data ++ f2) := by
  have hT := noQuote_tpl hp hs
  refine ⟨?_, ?_, ?_⟩
  · have hshape : replacer3 w p f1 sfx =
        "write!(".data ++ w ++ ", \"".data ++ (p ++ "\x7b\x7d".data ++ sfx) ++
          "\", ".data ++ f1 ++ ")".data := by
      unfold replacer3
      simp [List.append_assoc]
    rw [hshape, parseWriteCall_build _ _ _ hw hT]
  · have hshape : finalWriteReplSelf w p f1 sfx =
        "write!(".data ++ w ++ ", \"".data ++ (p ++ "\x7b\x7d".data ++ sfx) ++
          "\", ".data ++ ("self.".data ++ f1) ++ ")".data := by
      unfold finalWriteReplSelf
      have e : ("\", self.".data : List Char) = "\", ".data ++ "self.".data := rfl
      simp [e, List.append_assoc]
    rw [hshape, parseWriteCall_build _ _ _ hw hT]
  · have hshape : finalWriteReplVar w p f1 f2 sfx =
        "write!(".data ++ w ++ ", \"".data ++ (p ++ "\x7b\x7d".data ++ sfx) ++
          "\", ".data ++ (f1 ++ ".".data ++ f2) ++ ")".data := by
      unfold finalWriteReplVar
      simp [List.append_assoc]
    rw [hshape, parseWriteCall_build _ _ _ hw hT]

/-- C6, witness: a concrete phase2 write rewrite, parsed back. -/
theorem c6_witness :
    parseWriteCall (replacer3 "f".data "v=".data "self.val".data "!".data) =
      some ("f".data, "v=\x7b\x7d!".data, "self.val".data) := by
  have h := (c6_writer_first_unchanged "f".data "v=".data "self.val".data
    "x".data "!".data (by decide) (by decide) (by decide)).1
  rw [h]
  decide


/-! ## The File Driver contract (C8) -/

theorem fsFind_fsWrite_ne (fs : FSys) (p q c : List Char) (h : q ≠ p) :
    fsFind (fsWrite fs p c) q = fsFind fs q := by
  induction fs with
  | nil => rfl
  | cons e rest ih =>
    by_cases he : e.1 = p
    · have heq : ¬ (e.1 = q) := by rw [he]; exact fun hq => h hq.symm
      simp [fsWrite, fsFind, he, heq, ih, Ne.symm h]
    · by_cases heq : e.1 = q
      · simp [fsWrite, fsFind, he, heq, h]
      · simp [fsWrite, fsFind, he, heq, ih]

theorem fsFind_fsWrite_self (fs : FSys) (p c c2 : List Char)
    (w : Option (List Char)) (h : fsFind fs p = some (.readable c w)) :
    fsFind (fsWrite fs p c2) p = some (.readable c2 w) := by
  induction fs with
  | nil => simp [fsFind] at h
  | cons e rest ih =>
    by_cases he : e.1 = p
    · simp [fsFind, he] at h
      simp [fsWrite, fsFind, he, h]
    · simp [fsFind, he] at h
      simp [fsWrite, fsFind, he]
      exact ih h

theorem process_file_other (fs : FSys) (p q : List Char) (h : q ≠ p) :
    fsFind (process_file fs p).1 q = fsFind fs q := by
  unfold process_file
  cases hf : fsFind fs p with
  | none => simp
  | some e =>
    cases e with
    | unreadable cause => simp
    | readable c werr =>
      simp only
      by_cases hc : fix_format_strings c = c
      · simp [hc]
      · cases werr with
        | some cause => simp [hc]
        | none => simp [hc, fsFind_fsWrite_ne fs p q _ h]

theorem process_file_readable_none (fs : FSys) (p c : List Char)
    (h : fsFind fs p = some (.readable c none)) :
    fsFind (process_file fs p).1 p =
      some (.readable (if fix_format_strings c = c then c
        else fix_format_strings c) none) ∧
    (process_file fs p).2.1 = decide (fix_format_strings c ≠ c) := by
  unfold process_file
  rw [h]
  by_cases hc : fix_format_strings c = c
  · simp [hc, h]
  · simp [hc, fsFind_fsWrite_self fs p c _ none h]

theorem process_file_unreadable (fs : FSys) (p cause : List Char)
    (h : fsFind fs p = some (.unreadable cause)) :
    (process_file fs p).1 = fs ∧
    (process_file fs p).2 = (false, [errLine p cause]) := by
  unfold process_file
  rw [h]
  simp

theorem process_file_changed (fs : FSys) (p : List Char) :
    (process_file fs p).2.1 = wouldFix fs p := by
  unfold process_file wouldFix
  cases hf : fsFind fs p with
  | none => simp
  | some e =>
    cases e with
    | unreadable cause => simp
    | readable c werr =>
      cases werr with
      | some cause =>
        by_cases hc : fix_format_strings c = c <;> simp [hc]
      | none =>
        by_cases hc : fix_format_strings c = c <;> simp [hc]

theorem wouldFix_congr {fs1 fs2 : FSys} {p : List Char}
    (h : fsFind fs1 p = fsFind fs2 p) : wouldFix fs1 p = wouldFix fs2 p := by
  unfold wouldFix
  rw [h]

theorem foldl_driveStep_spec (fs0 : FSys) :
    ∀ (L : List (List Char)) (st : DriveState), L.Nodup →
      (∀ p ∈ L, fsFind st.fsys p = fsFind fs0 p) →
      (∀ p c, p ∈ L → fsFind fs0 p = some (.readable c none) →
        fsFind (L.foldl driveStep st).fsys p =
          some (.readable (if fix_format_strings c = c then c
            else fix_format_strings c) none)) ∧
      (∀ p, p ∉ L → fsFind (L.foldl driveStep st).fsys p = fsFind st.fsys p) ∧
      (∀ p cause, p ∈ L → fsFind fs0 p = some (.unreadable cause) →
        errLine p cause ∈ (L.foldl driveStep st).logs) ∧
      (∀ x ∈ st.logs, x ∈ (L.foldl driveStep st).logs) ∧
      (L.foldl driveStep st).total = st.total + L.length ∧
      (L.foldl driveStep st).fixedCount = st.fixedCount +
        (L.filter (wouldFix fs0)).length := by
  intro L
  induction L with
  | nil =>
    intro st _ _
    refine ⟨?_, ?_, ?_, ?_, ?_, ?_⟩
    · intro p c hp _; exact absurd hp (List.not_mem_nil p)
    · intro p _; rfl
    · intro p cause hp _; exact absurd hp (List.not_mem_nil p)
    · intro x hx; exact hx
    · simp
    · simp
  | cons p rest ih =>
    intro st hnd hpre
    have hndr : rest.Nodup := (List.nodup_cons.1 hnd).2
    have hpnotin : p ∉ rest := (List.nodup_cons.1 hnd).1
    have hfsp : fsFind st.fsys p = fsFind fs0 p :=
      hpre p (List.mem_cons_self p rest)
    have hother : ∀ q, q ≠ p →
        fsFind (driveStep st p).fsys q = fsFind st.fsys q := by
      intro q hq
      exact process_file_other st.fsys p q hq
    have hpre1 : ∀ q ∈ rest, fsFind (driveStep st p).fsys q = fsFind fs0 q := by
      intro q hq
      have hqp : q ≠ p := fun hh => hpnotin (hh ▸ hq)
      rw [hother q hqp]
      exact hpre q (List.mem_cons_of_mem p hq)
    obtain ⟨ha, hb, hc, hd, he, hf⟩ := ih (driveStep st p) hndr hpre1
    have hfold : (p :: rest).foldl driveStep st =
        rest.foldl driveStep (driveStep st p) := rfl
    refine ⟨?_, ?_, ?_, ?_, ?_, ?_⟩
    · intro q c hq hq0
      rw [hfold]
      rcases List.mem_cons.1 hq with rfl | hq2
      · have h1 : fsFind (driveStep st q).fsys q =
            some (.readable (if fix_format_strings c = c then c
              else fix_format_strings c) none) :=
          (process_file_readable_none st.fsys q c (hfsp.trans hq0)).1
        rw [hb q hpnotin, h1]
      · exact ha q c hq2 hq0
    · intro q hq
      rw [hfold]
      have hq2 : q ∉ rest := fun hh => hq (List.mem_cons_of_mem p hh)
      have hqp : q ≠ p := fun hh => hq (hh ▸ List.mem_cons_self p rest)
      rw [hb q hq2, hother q hqp]
    · intro q cause hq hq0
      rw [hfold]
      rcases List.mem_cons.1 hq with rfl | hq2
      · apply hd
        have h2 := (process_file_unreadable st.fsys q cause (hfsp.trans hq0)).2
        show errLine q cause ∈ (driveStep st q).logs
        simp [driveStep, h2]
      · exact hc q cause hq2 hq0
    · intro x hx
      rw [hfold]
      apply hd
      simp [driveStep, hx]
    · rw [hfold, he]
      simp only [driveStep, List.length_cons]
      omega
    · rw [hfold, hf]
      have hch : (process_file st.fsys p).2.1 = wouldFix fs0 p := by
        rw [process_file_changed st.fsys p]
        exact wouldFix_congr hfsp
      rw [List.filter_cons]
      by_cases hwf : wouldFix fs0 p
      · simp [driveStep, hch, hwf]
        omega
      · simp [driveStep, hch, hwf]

/-- C8: the File Driver's contract, over any walk and model file system
whose eligible paths are distinct.  A readable, writable file ends with the
normalized content exactly when the normalization changed it and keeps its
original content otherwise; files outside the eligible set (non-`.rs`
files, excluded roots) are untouched; an I/O failure is reported as an
error line naming the path and the cause while every other file is still
processed; and the run reports the number of files scanned and the number
changed. -/
theorem c8_driver_contract (walks : List (List Char × List (List Char)))
    (fs : FSys) (hnd : (eligiblePaths walks).Nodup) :
    (∀ p c, p ∈ eligiblePaths walks →
      fsFind fs p = some (.readable c none) →
      fsFind (mainRun walks fs).fsys p =
        some (.readable (if fix_format_strings c = c then c
          else fix_format_strings c) none)) ∧
    (∀ p, p ∉ eligiblePaths walks →
      fsFind (mainRun walks fs).fsys p = fsFind fs p) ∧
    (∀ p cause, p ∈ eligiblePaths walks →
      fsFind fs p = some (.unreadable cause) →
      errLine p cause ∈ (mainRun walks fs).logs) ∧
    (mainRun walks fs).total = (eligiblePaths walks).length ∧
    (mainRun walks fs).fixedCount =
      ((eligiblePaths walks).filter (wouldFix fs)).length := by
  obtain ⟨ha, hb, hc, hd, he, hf⟩ :=
    foldl_driveStep_spec fs (eligiblePaths walks) ⟨fs, 0, 0, []⟩ hnd
      (fun p _ => rfl)
  refine ⟨?_, ?_, ?_, ?_, ?_⟩
  · intro p c hp h0
    have := ha p c hp h0
    simpa [mainRun] using this
  · intro p hp
    have := hb p hp
    simpa [mainRun] using this
  · intro p cause hp h0
    have := hc p cause hp h0
    simp [mainRun]
    exact Or.inl this
  · simpa [mainRun] using he
  · simpa [mainRun] using hf

/-- C8, witness: on a concrete tree the changed file is rewritten, the
unchanged and excluded files keep their bytes, the unreadable file is
reported with its path and cause, and the counts are right. -/
theorem c8_witness :
    (eligiblePaths walksW).Nodup ∧
    fsFind (mainRun walksW fsW).fsys "src/a.rs".data =
      some (.readable "format!(\"\x7ba\x7d\")".data none) ∧
    fsFind (mainRun walksW fsW).fsys "src/b.rs".data =
      some (.readable "fn main()".data none) ∧
    fsFind (mainRun walksW fsW).fsys "target/d.rs".data =
      some (.readable "format!(\"\x7b\x7d\", a)".data none) ∧
    errLine "src/c.rs".data "Permission denied".data ∈ (mainRun walksW fsW).logs ∧
    (mainRun walksW fsW).total = 3 ∧
    (mainRun walksW fsW).fixedCount = 1 := by
  obtain ⟨ha, hb, hc, hd, he⟩ := c8_driver_contract walksW fsW (by decide)
  refine ⟨by decide, ?_, ?_, ?_, ?_, ?_, ?_⟩
  · rw [ha "src/a.rs".data "format!(\"\x7b\x7d\", a)".data (by decide) (by decide)]
    decide
  · rw [ha "src/b.rs".data "fn main()".data (by decide) (by decide)]
    decide
  · rw [hb "target/d.rs".data (by decide)]
    decide
  · exact hc "src/c.rs".data "Permission denied".data (by decide) (by decide)
  · rw [hd]; decide
  · rw [he]; decide


theorem groupFind_groupUpdate_self (g : List (List Char × CatGroup))
    (k : List Char) (f : CatGroup → CatGroup) :
    groupFind (groupUpdate g k f) k =
      some (f ((groupFind g k).getD emptyCatGroup)) := by
  induction g with
  | nil => simp [groupUpdate, groupFind, assocFind]
  | cons e rest ih =>
    by_cases he : e.1 = k
    · simp [groupUpdate, groupFind, assocFind, he]
    · simp [groupUpdate, groupFind, assocFind, he] at ih ⊢
      exact ih

theorem groupFind_groupUpdate_ne (g : List (List Char × CatGroup))
    (k k2 : List Char) (f : CatGroup → CatGroup) (h : k2 ≠ k) :
    groupFind (groupUpdate g k f) k2 = groupFind g k2 := by
  induction g with
  | nil => simp [groupUpdate, groupFind, assocFind, Ne.symm h]
  | cons e rest ih =>
    by_cases he : e.1 = k
    · have he2 : ¬ (e.1 = k2) := by rw [he]; exact fun hh => h hh.symm
      simp [groupUpdate, groupFind, assocFind, he, he2, Ne.symm h]
    · by_cases he2 : e.1 = k2
      · simp [groupUpdate, groupFind, assocFind, he, he2, h]
      · simp [groupUpdate, groupFind, assocFind, he, he2] at ih ⊢
        exact ih

theorem assocFind_assocAppend_self (l : List (List Char × List VTerm))
    (k : List Char) (v : VTerm) :
    assocFind (assocAppend l k v) k =
      some ((assocFind l k).getD [] ++ [v]) := by
  induction l with
  | nil => simp [assocAppend, assocFind]
  | cons e rest ih =>
    by_cases he : e.1 = k
    · simp [assocAppend, assocFind, he]
    · simp [assocAppend, assocFind, he] at ih ⊢
      exact ih

theorem assocFind_assocAppend_ne (l : List (List Char × List VTerm))
    (k k2 : List Char) (v : VTerm) (h : k2 ≠ k) :
    assocFind (assocAppend l k v) k2 = assocFind l k2 := by
  induction l with
  | nil => simp [assocAppend, assocFind, Ne.symm h]
  | cons e rest ih =>
    by_cases he : e.1 = k
    · have he2 : ¬ (e.1 = k2) := by rw [he]; exact fun hh => h hh.symm
      simp [assocAppend, assocFind, he, he2, Ne.symm h]
    · by_cases he2 : e.1 = k2
      · simp [assocAppend, assocFind, he, he2, h]
      · simp [assocAppend, assocFind, he, he2] at ih ⊢
        exact ih

theorem lookupDirect_groupStep (g : List (List Char × CatGroup)) (t : VTerm)
    (cid : List Char) :
    lookupDirect (groupStep g t) cid =
      lookupDirect g cid ++
        (if decide (t.tcategory = cid) && !truthy t.tsubcategory
         then [t] else []) := by
  unfold lookupDirect groupStep
  by_cases hcid : t.tcategory = cid
  · subst hcid
    rw [groupFind_groupUpdate_self]
    by_cases hsub : truthy t.tsubcategory
    · simp [hsub]
    · simp [hsub]
  · rw [groupFind_groupUpdate_ne _ _ _ _ (fun hh => hcid hh.symm)]
    simp [hcid]

theorem lookupSub_groupStep (g : List (List Char × CatGroup)) (t : VTerm)
    (cid sid : List Char) :
    lookupSub (groupStep g t) cid sid =
      lookupSub g cid sid ++
        (if decide (t.tcategory = cid) && (truthy t.tsubcategory &&
            decide (t.tsubcategory.getD [] = sid))
         then [t] else []) := by
  unfold lookupSub groupStep
  by_cases hcid : t.tcategory = cid
  · subst hcid
    rw [groupFind_groupUpdate_self]
    by_cases hsub : truthy t.tsubcategory
    · by_cases hs : t.tsubcategory.getD [] = sid
      · simp [hsub, hs, assocFind_assocAppend_self]
      · simp [hsub, hs,
          assocFind_assocAppend_ne _ _ _ _ (fun hh => hs hh.symm)]
    · simp [hsub]
  · rw [groupFind_groupUpdate_ne _ _ _ _ (fun hh => hcid hh.symm)]
    simp [hcid]


theorem lookupDirect_foldl (ts : List VTerm) :
    ∀ (g : List (List Char × CatGroup)) (cid : List Char),
      lookupDirect (ts.foldl groupStep g) cid =
        lookupDirect g cid ++ ts.filter
          (fun t => decide (t.tcategory = cid) && !truthy t.tsubcategory) := by
  induction ts with
  | nil => intro g cid; simp
  | cons t ts ih =>
    intro g cid
    rw [List.foldl_cons, ih, lookupDirect_groupStep, List.filter_cons]
    by_cases hb : (decide (t.tcategory = cid) && !truthy t.tsubcategory) = true
    · simp [hb, List.append_assoc]
    · simp [hb]

theorem lookupDirect_groupTerms (ts : List VTerm) (cid : List Char) :
    lookupDirect (groupTerms ts) cid =
      ts.filter (fun t => decide (t.tcategory = cid) && !truthy t.tsubcategory) := by
  have := lookupDirect_foldl ts [] cid
  simpa [groupTerms, lookupDirect, groupFind, assocFind, emptyCatGroup] using this

theorem lookupSub_foldl (ts : List VTerm) :
    ∀ (g : List (List Char × CatGroup)) (cid sid : List Char),
      lookupSub (ts.foldl groupStep g) cid sid =
        lookupSub g cid sid ++ ts.filter
          (fun t => decide (t.tcategory = cid) && (truthy t.tsubcategory &&
            decide (t.tsubcategory.getD [] = sid))) := by
  induction ts with
  | nil => intro g cid sid; simp
  | cons t ts ih =>
    intro g cid sid
    rw [List.foldl_cons, ih, lookupSub_groupStep, List.filter_cons]
    by_cases hb : (decide (t.tcategory = cid) && (truthy t.tsubcategory &&
        decide (t.tsubcategory.getD [] = sid))) = true
    · simp [hb, List.append_assoc]
    · simp [hb]

theorem lookupSub_groupTerms (ts : List VTerm) (cid sid : List Char) :
    lookupSub (groupTerms ts) cid sid =
      ts.filter (fun t => decide (t.tcategory = cid) && (truthy t.tsubcategory &&
        decide (t.tsubcategory.getD [] = sid))) := by
  have := lookupSub_foldl ts [] cid sid
  simpa [groupTerms, lookupSub, groupFind, assocFind, emptyCatGroup] using this

theorem groupFind_isSome_groupStep (g : List (List Char × CatGroup)) (t : VTerm)
    (cid : List Char) :
    (groupFind (groupStep g t) cid).isSome =
      ((groupFind g cid).isSome || decide (t.tcategory = cid)) := by
  unfold groupStep
  by_cases hcid : t.tcategory = cid
  · subst hcid
    rw [groupFind_groupUpdate_self]
    simp
  · rw [groupFind_groupUpdate_ne _ _ _ _ (fun hh => hcid hh.symm)]
    simp [hcid]

theorem groupFind_isSome_foldl (ts : List VTerm) :
    ∀ (g : List (List Char × CatGroup)) (cid : List Char),
      (groupFind (ts.foldl groupStep g) cid).isSome =
        ((groupFind g cid).isSome || ts.any (fun t => decide (t.tcategory = cid))) := by
  induction ts with
  | nil => intro g cid; simp
  | cons t ts ih =>
    intro g cid
    rw [List.foldl_cons, ih, groupFind_isSome_groupStep, List.any_cons]
    cases (groupFind g cid).isSome <;> cases hd : decide (t.tcategory = cid) <;> simp

theorem groupFind_isSome_groupTerms (ts : List VTerm) (cid : List Char) :
    (groupFind (groupTerms ts) cid).isSome =
      ts.any (fun t => decide (t.tcategory = cid)) := by
  have := groupFind_isSome_foldl ts [] cid
  simpa [groupTerms, groupFind, assocFind] using this


theorem headingPred_cat_heading (n : List Char) :
    headingPred ('#' :: '#' :: ' ' :: n) = true := by
  simp +decide [headingPred, List.isPrefixOf]

theorem headingPred_sub_heading (n : List Char) :
    headingPred ('#' :: '#' :: '#' :: ' ' :: n) = false := by
  simp +decide [headingPred, List.isPrefixOf]

theorem headingPred_star (d : List Char) : headingPred ('*' :: d) = false := by
  simp +decide [headingPred, List.isPrefixOf]

theorem headingPred_empty : headingPred ([] : List Char) = false := by
  simp +decide [headingPred, List.isPrefixOf]

theorem headingPred_term_section (t : VTerm) (lvl : List Char)
    (h : lvl = "###".data ∨ lvl = "####".data) :
    headingPred (generate_term_section t lvl) = false := by
  rcases h with rfl | rfl <;>
    simp +decide [headingPred, generate_term_section, joinSep, List.isPrefixOf]

theorem termBlockPred_cat_heading (n : List Char) :
    termBlockPred ('#' :: '#' :: ' ' :: n) = false := by
  simp +decide [termBlockPred, List.isPrefixOf]

theorem termBlockPred_star (d : List Char) : termBlockPred ('*' :: d) = false := by
  simp +decide [termBlockPred, List.isPrefixOf]

theorem termBlockPred_empty : termBlockPred ([] : List Char) = false := by
  simp +decide [termBlockPred, List.isPrefixOf]

theorem termBlockPred_sub_heading (n : List Char)
    (h : ("Term: ".data).isPrefixOf n = false) :
    termBlockPred ('#' :: '#' :: '#' :: ' ' :: n) = false := by
  have e : ("Term: ".data : List Char) = ['T', 'e', 'r', 'm', ':', ' '] := rfl
  rw [e] at h
  simp +decide [termBlockPred, List.isPrefixOf, h]

theorem termBlockPred_term_section (t : VTerm) (lvl : List Char)
    (h : lvl = "###".data ∨ lvl = "####".data) :
    termBlockPred (generate_term_section t lvl) = true := by
  rcases h with rfl | rfl <;>
    simp +decide [termBlockPred, generate_term_section, joinSep, List.isPrefixOf]

theorem termBlockLines_termLines (lvl : List Char)
    (h : lvl = "###".data ∨ lvl = "####".data) :
    ∀ ts : List VTerm, termBlockLines (termLines lvl ts) =
      ts.map (fun t => generate_term_section t lvl) := by
  intro ts
  induction ts with
  | nil => rfl
  | cons t ts ih =>
    simp only [termLines, termBlockLines, List.filter_cons,
      termBlockPred_term_section t lvl h, termBlockPred_empty] at ih ⊢
    simp [ih]

theorem headingLines_termLines (lvl : List Char)
    (h : lvl = "###".data ∨ lvl = "####".data) :
    ∀ ts : List VTerm, headingLines (termLines lvl ts) = [] := by
  intro ts
  induction ts with
  | nil => rfl
  | cons t ts ih =>
    simp only [termLines, headingLines, List.filter_cons,
      headingPred_term_section t lvl h, headingPred_empty] at ih ⊢
    simp [ih]


theorem headingLines_append (a b : List (List Char)) :
    headingLines (a ++ b) = headingLines a ++ headingLines b :=
  List.filter_append a b

theorem headingLines_cons (x : List Char) (l : List (List Char)) :
    headingLines (x :: l) =
      if headingPred x then x :: headingLines l else headingLines l := by
  simp only [headingLines, List.filter_cons]

theorem termBlockLines_append (a b : List (List Char)) :
    termBlockLines (a ++ b) = termBlockLines a ++ termBlockLines b :=
  List.filter_append a b

theorem termBlockLines_cons (x : List Char) (l : List (List Char)) :
    termBlockLines (x :: l) =
      if termBlockPred x then x :: termBlockLines l else termBlockLines l := by
  simp only [termBlockLines, List.filter_cons]


theorem headingLines_subcatLines (cg : CatGroup) :
    ∀ subs : List VSubcat, headingLines (subcatLines cg subs) = [] := by
  intro subs
  induction subs with
  | nil => rfl
  | cons sc rest ih =>
    cases hf : assocFind cg.subcats sc.sid with
    | none =>
      simp only [subcatLines, hf, List.nil_append]
      exact ih
    | some ts2 =>
      by_cases htr : truthy sc.sdescription <;>
        simp [subcatLines, hf, htr, headingLines_append, headingLines_cons,
          headingPred_sub_heading, headingPred_empty, headingPred_star,
          headingLines_termLines "####".data (Or.inr rfl), ih]


theorem termBlockLines_subcatLines (cg : CatGroup) :
    ∀ subs : List VSubcat,
      (∀ sc ∈ subs, ("Term: ".data).isPrefixOf sc.sname = false) →
      termBlockLines (subcatLines cg subs) =
        subs.flatMap fun sc => ((assocFind cg.subcats sc.sid).getD []).map
          fun t => generate_term_section t "####".data := by
  intro subs
  induction subs with
  | nil => intro _; rfl
  | cons sc rest ih =>
    intro hclean
    have hsc : ("Term: ".data).isPrefixOf sc.sname = false :=
      hclean sc (List.mem_cons_self sc rest)
    have ihr := ih fun x hx => hclean x (List.mem_cons_of_mem sc hx)
    cases hf : assocFind cg.subcats sc.sid with
    | none =>
      simp only [subcatLines, hf, List.nil_append, List.flatMap_cons]
      simp [ihr, hf]
    | some ts2 =>
      by_cases htr : truthy sc.sdescription <;>
        simp [subcatLines, hf, htr, termBlockLines_append, termBlockLines_cons,
          termBlockPred_sub_heading sc.sname hsc, termBlockPred_empty,
          termBlockPred_star,
          termBlockLines_termLines "####".data (Or.inr rfl), ihr]

theorem termBlockLines_sectionFor (ts : List VTerm) (c : VCategory)
    (hclean : ∀ sc ∈ c.csubcategories.getD [],
      ("Term: ".data).isPrefixOf sc.sname = false) :
    termBlockLines (sectionFor (groupTerms ts) c) =
      ((c.csubcategories.getD []).flatMap fun sc =>
        (ts.filter fun t => decide (t.tcategory = c.cid) &&
          (truthy t.tsubcategory &&
            decide (t.tsubcategory.getD [] = sc.sid))).map
          fun t => generate_term_section t "####".data) ++
      ((ts.filter fun t => decide (t.tcategory = c.cid) &&
          !truthy t.tsubcategory).map
        fun t => generate_term_section t "###".data) := by
  have hsub : ∀ sid, (assocFind ((groupFind (groupTerms ts) c.cid).getD
      emptyCatGroup).subcats sid).getD [] =
      ts.filter fun t => decide (t.tcategory = c.cid) &&
        (truthy t.tsubcategory && decide (t.tsubcategory.getD [] = sid)) := by
    intro sid
    exact lookupSub_groupTerms ts c.cid sid
  have hdir : ((groupFind (groupTerms ts) c.cid).getD emptyCatGroup).direct =
      ts.filter fun t => decide (t.tcategory = c.cid) &&
        !truthy t.tsubcategory :=
    lookupDirect_groupTerms ts c.cid
  unfold sectionFor
  cases hg : groupFind (groupTerms ts) c.cid with
  | none =>
    rw [hg] at hsub hdir
    simp only [Option.getD_none] at hsub hdir
    simp only [emptyCatGroup] at hsub hdir
    simp only [assocFind] at hsub
    rw [show (termBlockLines [] : List (List Char)) = [] from rfl]
    have h1 : ∀ sc ∈ c.csubcategories.getD [],
        (ts.filter fun t => decide (t.tcategory = c.cid) &&
          (truthy t.tsubcategory &&
            decide (t.tsubcategory.getD [] = sc.sid))) = [] := by
      intro sc _
      rw [← hsub sc.sid]
      rfl
    rw [← hdir]
    have h2 : (c.csubcategories.getD []).flatMap (fun sc =>
        (ts.filter fun t => decide (t.tcategory = c.cid) &&
          (truthy t.tsubcategory &&
            decide (t.tsubcategory.getD [] = sc.sid))).map
          fun t => generate_term_section t "####".data) = [] := by
      rw [List.flatMap_eq_nil_iff]
      intro sc hsc
      rw [h1 sc hsc]
      rfl
    rw [h2]
    rfl
  | some cg =>
    rw [hg] at hsub hdir
    simp only [Option.getD_some] at hsub hdir
    by_cases htr : truthy c.cdescription <;>
      simp [htr, termBlockLines_append, termBlockLines_cons,
        termBlockPred_cat_heading, termBlockPred_empty, termBlockPred_star,
        termBlockLines_subcatLines cg (c.csubcategories.getD []) hclean,
        termBlockLines_termLines "###".data (Or.inl rfl), hsub, hdir]


theorem headingLines_sectionFor (ts : List VTerm) (c : VCategory) :
    headingLines (sectionFor (groupTerms ts) c) =
      if ts.any (fun t => decide (t.tcategory = c.cid)) then
        ["## ".data ++ c.cname] else [] := by
  have hany := groupFind_isSome_groupTerms ts c.cid
  unfold sectionFor
  cases hg : groupFind (groupTerms ts) c.cid with
  | none =>
    rw [hg] at hany
    have h2 : (ts.any fun t => decide (t.tcategory = c.cid)) = false := by
      rw [← hany]
      rfl
    rw [h2]
    rfl
  | some cg =>
    rw [hg] at hany
    have h2 : (ts.any fun t => decide (t.tcategory = c.cid)) = true := by
      rw [← hany]
      rfl
    by_cases htr : truthy c.cdescription <;>
      simp [h2, htr, headingLines_append, headingLines_cons,
        headingPred_cat_heading, headingPred_empty, headingPred_star,
        headingLines_subcatLines cg (c.csubcategories.getD []),
        headingLines_termLines "###".data (Or.inl rfl)]

theorem headingLines_sectionsFor (ts : List VTerm) :
    ∀ cats : List VCategory,
      headingLines (sectionsFor (groupTerms ts) cats) =
        (cats.filter fun c => ts.any fun t => decide (t.tcategory = c.cid)).map
          fun c => "## ".data ++ c.cname := by
  intro cats
  induction cats with
  | nil => rfl
  | cons c cs ih =>
    show headingLines (sectionFor (groupTerms ts) c ++
      sectionsFor (groupTerms ts) cs) = _
    rw [headingLines_append, headingLines_sectionFor, ih, List.filter_cons]
    by_cases hb : (ts.any fun t => decide (t.tcategory = c.cid)) = true
    · simp [hb]
    · simp [hb]

theorem termBlockLines_sectionsFor (ts : List VTerm) :
    ∀ cats : List VCategory,
      (∀ c ∈ cats, ∀ sc ∈ c.csubcategories.getD [],
        ("Term: ".data).isPrefixOf sc.sname = false) →
      termBlockLines (sectionsFor (groupTerms ts) cats) =
        renderedBlocks ts cats := by
  intro cats
  induction cats with
  | nil => intro _; rfl
  | cons c cs ih =>
    intro hclean
    show termBlockLines (sectionFor (groupTerms ts) c ++
      sectionsFor (groupTerms ts) cs) = _
    rw [termBlockLines_append,
      termBlockLines_sectionFor ts c (hclean c (List.mem_cons_self c cs)),
      ih fun x hx => hclean x (List.mem_cons_of_mem c hx)]
    show _ = renderedBlocks ts (c :: cs)
    rw [renderedBlocks]

theorem cleanCats_spec {cats : List VCategory} (h : cleanCats cats = true) :
    ∀ c ∈ cats, ∀ sc ∈ c.csubcategories.getD [],
      ("Term: ".data).isPrefixOf sc.sname = false := by
  intro c hc sc hsc
  unfold cleanCats at h
  rw [List.all_eq_true] at h
  have h2 := h c hc
  rw [List.all_eq_true] at h2
  have h3 := h2 sc hsc
  simpa using h3

theorem termBlockLines_generate_markdown (v : Vocab)
    (hc : cleanCats v.categories = true) :
    termBlockLines (generate_markdown v) =
      renderedBlocks v.terms v.categories := by
  unfold generate_markdown
  rw [termBlockLines_append, termBlockLines_append,
    termBlockLines_sectionsFor v.terms v.categories (cleanCats_spec hc)]
  rw [show termBlockLines ["# CIM Vocabulary".data, [],
    "[← Back to Index](index.md)".data, []] = [] from by decide]
  rw [show termBlockLines ["---".data, [],
    "*This vocabulary is continuously updated as the system evolves. For the latest implementation details, refer to the source code and documentation.*".data] = [] from by decide]
  simp only [List.nil_append, List.append_nil]

theorem headingLines_generate_markdown (v : Vocab) :
    headingLines (generate_markdown v) =
      (v.categories.filter fun c =>
        v.terms.any fun t => decide (t.tcategory = c.cid)).map
        fun c => "## ".data ++ c.cname := by
  unfold generate_markdown
  rw [headingLines_append, headingLines_append,
    headingLines_sectionsFor v.terms v.categories]
  rw [show headingLines ["# CIM Vocabulary".data, [],
    "[← Back to Index](index.md)".data, []] = [] from by decide]
  rw [show headingLines ["---".data, [],
    "*This vocabulary is continuously updated as the system evolves. For the latest implementation details, refer to the source code and documentation.*".data] = [] from by decide]
  simp only [List.nil_append, List.append_nil]


theorem filter_drop_mid {l1 l2 : List VTerm} {t : VTerm} (p : VTerm → Bool)
    (hp : p t = false) : (l1 ++ t :: l2).filter p = (l1 ++ l2).filter p := by
  rw [List.filter_append, List.filter_append, List.filter_cons, hp]
  simp

theorem flatMap_congr_mem {A B : Type} {l : List A} {f g : A → List B}
    (h : ∀ x ∈ l, f x = g x) : l.flatMap f = l.flatMap g := by
  induction l with
  | nil => rfl
  | cons x xs ih =>
    rw [List.flatMap_cons, List.flatMap_cons, h x (List.mem_cons_self x xs),
      ih fun y hy => h y (List.mem_cons_of_mem x hy)]

theorem badTerm_spec {t : VTerm} {cats : List VCategory}
    (hb : badTerm t cats = true) :
    ∀ c ∈ cats,
      (decide (t.tcategory = c.cid) && !truthy t.tsubcategory) = false ∧
      ∀ sc ∈ c.csubcategories.getD [],
        (decide (t.tcategory = c.cid) && (truthy t.tsubcategory &&
          decide (t.tsubcategory.getD [] = sc.sid))) = false := by
  unfold badTerm at hb
  rcases Bool.or_eq_true_iff.1 hb with h | h
  · rw [List.all_eq_true] at h
    intro c hc
    have h2 : ¬ (c.cid = t.tcategory) := by simpa using h c hc
    have h3 : decide (t.tcategory = c.cid) = false := by
      simp
      exact fun hh => h2 hh.symm
    constructor
    · rw [h3]; rfl
    · intro sc _
      rw [h3]; rfl
  · rw [Bool.and_eq_true] at h
    obtain ⟨htr, h⟩ := h
    rw [List.all_eq_true] at h
    intro c hc
    constructor
    · simp [htr]
    · intro sc hsc
      have h2 := h c hc
      simp only [Bool.or_eq_true, decide_eq_true_eq] at h2
      rcases h2 with h2 | h2
      · have h3 : decide (t.tcategory = c.cid) = false := by
          simp
          exact fun hh => h2 hh.symm
        rw [h3]; rfl
      · rw [List.all_eq_true] at h2
        have h4 : ¬ (sc.sid = t.tsubcategory.getD []) := by simpa using h2 sc hsc
        have h5 : ¬ (t.tsubcategory.getD [] = sc.sid) := fun hh => h4 hh.symm
        simp [h5]

theorem renderedBlocks_drop_bad {t : VTerm} {cats : List VCategory}
    (l1 l2 : List VTerm)
    (hspec : ∀ c ∈ cats,
      (decide (t.tcategory = c.cid) && !truthy t.tsubcategory) = false ∧
      ∀ sc ∈ c.csubcategories.getD [],
        (decide (t.tcategory = c.cid) && (truthy t.tsubcategory &&
          decide (t.tsubcategory.getD [] = sc.sid))) = false) :
    renderedBlocks (l1 ++ t :: l2) cats = renderedBlocks (l1 ++ l2) cats := by
  induction cats with
  | nil => rfl
  | cons c cs ih =>
    have hc := hspec c (List.mem_cons_self c cs)
    rw [renderedBlocks, renderedBlocks,
      filter_drop_mid _ hc.1,
      flatMap_congr_mem (fun sc hsc => by
        rw [filter_drop_mid _ (hc.2 sc hsc)]),
      ih fun x hx => hspec x (List.mem_cons_of_mem c hx)]

set_option maxRecDepth 4096 in
/-- C10, counterexample: the claim is not true of every term whose
subcategory identifier is undeclared.  `emptySubT` has the declared
category `core` and the subcategory identifier `""`, which is not declared
among the category's subcategories, so the claim puts it in scope and
predicts silent omission — but the grouping loop's `if subcat_id:` test is
falsy on the empty string, files the term under `direct`, and the document
renders its term block. -/
theorem c10_counterexample :
    emptySubT.tsubcategory = some [] ∧
    (catsW.all fun c => (c.csubcategories.getD []).all fun sc =>
      ¬ (sc.sid = emptySubT.tsubcategory.getD [])) = true ∧
    termBlockLines (generate_markdown ⟨catsW, [emptySubT]⟩) =
      [generate_term_section emptySubT "###".data] ∧
    reportedTermCount ⟨catsW, [emptySubT]⟩ = 1 :=
  ⟨rfl, by decide, by decide, rfl⟩

/-- C10 (amended): a term whose category identifier is undeclared, or
whose subcategory identifier is truthy (neither missing nor empty) and not
among its category's declared subcategories, contributes no term block to
the generated document, while the reported term count still includes it.
A term with an empty-string subcategory identifier is instead treated like
a term with no subcategory and rendered as a direct term of its category
(see the counterexample).  (The `cleanCats` side condition only rules out
subcategory display names that begin with the term-block label `Term: `,
which would make heading lines indistinguishable from term blocks in the
line classification.) -/
theorem c10_undeclared_terms_silently_omitted (cats : List VCategory)
    (l1 l2 : List VTerm) (t : VTerm) (hb : badTerm t cats = true)
    (hc : cleanCats cats = true) :
    termBlockLines (generate_markdown ⟨cats, l1 ++ t :: l2⟩) =
      termBlockLines (generate_markdown ⟨cats, l1 ++ l2⟩) ∧
    reportedTermCount ⟨cats, l1 ++ t :: l2⟩ = (l1 ++ l2).length + 1 := by
  constructor
  · rw [termBlockLines_generate_markdown ⟨cats, l1 ++ t :: l2⟩ hc,
      termBlockLines_generate_markdown ⟨cats, l1 ++ l2⟩ hc]
    exact renderedBlocks_drop_bad l1 l2 (badTerm_spec hb)
  · simp [reportedTermCount]
    omega

/-- C10, witness: `badT` references the undeclared subcategory `nope`;
adding it to the term list leaves the rendered term blocks unchanged while
the reported count grows to 2. -/
theorem c10_witness :
    badTerm badT catsW = true ∧ cleanCats catsW = true ∧
    termBlockLines (generate_markdown ⟨catsW, [goodT, badT]⟩) =
      termBlockLines (generate_markdown ⟨catsW, [goodT]⟩) ∧
    reportedTermCount ⟨catsW, [goodT, badT]⟩ = 2 :=
  ⟨by decide, by decide,
   (c10_undeclared_terms_silently_omitted catsW [goodT] [] badT
     (by decide) (by decide)).1,
   (c10_undeclared_terms_silently_omitted catsW [goodT] [] badT
     (by decide) (by decide)).2⟩

/-- C9, counterexample: a vocabulary with one term whose category
identifier `ghost` is not declared produces a document with no term block
and no category heading at all — the term is not grouped under any
heading, contradicting the claim that every term is rendered under its
category heading. -/
theorem c9_counterexample :
    vBadCat.terms.length = 1 ∧
    termBlockLines (generate_markdown vBadCat) = [] ∧
    headingLines (generate_markdown vBadCat) = [] :=
  ⟨by decide, by decide, by decide⟩

/-- C9 (amended): the projector emits one `##` heading per category that
some term references, in the declaration order of the input's
`categories` list, and — for inputs whose subcategory display names do not
begin with `Term: ` — the term blocks of the document are exactly
`renderedBlocks`: the declared terms grouped per category in declaration
order — within a category the subcategory-term blocks come first, in
subcategory declaration order, followed by the direct-term blocks — each
rendered by `generate_term_section`.  Terms referencing undeclared
categories, or undeclared non-empty subcategories, are dropped (see the
counterexample), so the original universally quantified grouping claim
fails. -/
theorem c9_sections_follow_declaration_order (v : Vocab)
    (hc : cleanCats v.categories = true) :
    headingLines (generate_markdown v) =
      (v.categories.filter fun c =>
        v.terms.any fun t => decide (t.tcategory = c.cid)).map
        (fun c => "## ".data ++ c.cname) ∧
    termBlockLines (generate_markdown v) =
      renderedBlocks v.terms v.categories :=
  ⟨headingLines_generate_markdown v, termBlockLines_generate_markdown v hc⟩

/-- C9, witness: the amended theorem evaluated on the concrete one-category
vocabulary with the single declared term `goodT`. -/
theorem c9_witness :
    cleanCats catsW = true ∧
    (headingLines (generate_markdown ⟨catsW, [goodT]⟩) =
      (catsW.filter fun c =>
        [goodT].any fun t => decide (t.tcategory = c.cid)).map
        (fun c => "## ".data ++ c.cname) ∧
    termBlockLines (generate_markdown ⟨catsW, [goodT]⟩) =
      renderedBlocks [goodT] catsW) :=
  ⟨by decide, c9_sections_follow_declaration_order ⟨catsW, [goodT]⟩ (by decide)⟩

end Alchemist
